import Mathlib

/-! dmarc-report-converter: configuration resolution and the files pipeline.

A shallow embedding of `cmd/dmarc-report-converter/config.go` (`loadConfig`)
and `cmd/dmarc-report-converter/files.go` (`filesConverter`).

Every call that leaves the program (file system, YAML decoding, attachment
extraction, report parsing, merging, rendering) is answered by an `Env`;
the answer may depend on everything that was called before, so the whole
history of calls, each with the answer it received, is the state that is
threaded through the code.  Log output is not modelled.
-/

namespace Dmarc

/-! ## Go's `path/filepath` on Unix -/

/-- Splits a path at every `/`; `splitSlash "a//b" = ["a", "", "b"]`. -/
def splitSlash : List Char → List (List Char)
  | [] => [[]]
  | c :: cs =>
    if c = '/' then [] :: splitSlash cs
    else
      match splitSlash cs with
      | [] => [[c]]
      | e :: es => (c :: e) :: es

/-- One step of the element loop of `filepath.Clean`.  `out` holds the
elements written so far, last one first.  A `..` removes the last real
element when there is one, is dropped at the root of a rooted path, and is
kept otherwise; empty elements and `.` are dropped. -/
def cleanStep (rooted : Bool) (out : List (List Char)) (e : List Char) : List (List Char) :=
  if e = [] then out
  else if e = ['.'] then out
  else if e = ['.', '.'] then
    match out with
    | [] => if rooted then [] else [e]
    | top :: rest => if top = ['.', '.'] then e :: out else rest
  else e :: out

/-- Joins elements with `/`. -/
def joinSlash : List (List Char) → List Char
  | [] => []
  | [e] => e
  | e :: es => e ++ '/' :: joinSlash es

/-- Lexical path cleaning, `filepath.Clean` on lists of characters. -/
def cleanChars (p : List Char) : List Char :=
  let rooted := p.head? = some '/'
  let out := (splitSlash p).foldl (cleanStep rooted) []
  let body := joinSlash out.reverse
  if rooted then '/' :: body
  else if body = [] then ['.'] else body

/-- Go's `filepath.Clean`: the shortest path name equivalent to `path` by
purely lexical processing.  The empty string becomes `"."`. -/
def filepathClean (path : String) : String :=
  String.mk (cleanChars path.data)

/-- Go's `filepath.Join` of two elements: empty leading elements are ignored,
the rest is joined with `/` and cleaned; all empty gives the empty string. -/
def filepathJoin (a b : String) : String :=
  if a ≠ "" then filepathClean (String.mk (a.data ++ '/' :: b.data))
  else if b ≠ "" then filepathClean b
  else ""

/-- Drops trailing slashes. -/
def dropTrailingSlashes (p : List Char) : List Char :=
  (p.reverse.dropWhile (fun c => c = '/')).reverse

/-- Go's `filepath.Base`: the last element of the path; `"."` for the empty
path and `"/"` for a path of slashes only. -/
def filepathBase (path : String) : String :=
  if path = "" then "."
  else
    let p := dropTrailingSlashes path.data
    let last := (p.reverse.takeWhile (fun c => c ≠ '/')).reverse
    if last = [] then "/" else String.mk last

/-- Scans a reversed path for the extension: `acc` is what was read so far. -/
def extScan : List Char → List Char → List Char
  | [], _ => []
  | c :: cs, acc =>
    if c = '/' then []
    else if c = '.' then c :: acc
    else extScan cs (c :: acc)

/-- Go's `filepath.Ext`: the suffix of the last element beginning at its
final dot, empty when there is no dot. -/
def filepathExt (path : String) : String :=
  String.mk (extScan path.data.reverse [])


/-! ## Data model (`config.go`) -/

/-- A Go `error` value: its message, and whether `errors.Is(err, fs.ErrExist)`
holds for it. -/
structure GoError where
  msg : String
  isExist : Bool
  deriving DecidableEq, Repr

/-- The error built by `fmt.Errorf`. -/
def errorf (msg : String) : GoError := ⟨msg, false⟩

/-- A compiled `*template.Template`: the name it was created under and the
text it was parsed from. -/
structure Tmpl where
  name : String
  text : String
  deriving DecidableEq, Repr

/-- The `input.imap` section of the configuration. -/
structure IMAP where
  Server : String
  Username : String
  Password : String
  Mailbox : String
  Debug : Bool
  Delete : Bool
  Security : String
  deriving DecidableEq, Repr

/-- The `input` section of the configuration. -/
structure Input where
  Dir : String
  IMAP : IMAP
  Delete : Bool
  ArchiveDir : String
  deriving DecidableEq, Repr

/-- The `output` section of the configuration; a `nil` template is `none`. -/
structure Output where
  File : String
  fileTemplate : Option Tmpl
  Format : String
  Template : String
  template : Option Tmpl
  AssetsPath : String
  ExternalTemplate : String
  mergeKeyTemplate : Option Tmpl
  deriving DecidableEq, Repr

/-- The configuration.  `LookupLimit` is a Go `int`; no arithmetic is done on
it, so it is an integer here. -/
structure config where
  Input : Input
  Output : Output
  LookupAddr : Bool
  LookupLimit : Int
  MergeReports : Bool
  MergeKey : String
  LogDebug : Bool
  LogDatetime : Bool
  deriving DecidableEq, Repr

/-- `IMAP.IsConfigured`. -/
def IMAP.IsConfigured (i : IMAP) : Bool := i.Server != ""

/-- `Output.isStdout`. -/
def Output.isStdout (o : Output) : Bool :=
  if o.File = "" || o.File = "stdout" then true else false

/-! ## The world outside the program -/

mutual
/-- What `os.Lstat` and a directory read show at a path: a file that is not
a directory, a failing `Lstat`, or a directory with the outcome of reading
its names. -/
inductive FsNode where
  | file : FsNode
  | noStat (err : GoError) : FsNode
  | dir (readErr : Option GoError) (entries : FsEntries) : FsNode
/-- The names of a directory, in the order they are read, with what is
found under each. -/
inductive FsEntries where
  | nil : FsEntries
  | cons (name : String) (node : FsNode) (rest : FsEntries) : FsEntries
end

deriving instance DecidableEq for Except

/-- One call that left the program, with the answer it received. -/
inductive Event (Report : Type) where
  | readFile (path : String) (res : Except GoError String)
  | mkdirAll (path : String) (res : Option GoError)
  | stat (path : String) (isNotExist : Bool)
  | glob (pattern : String) (res : Except GoError (List String))
  | osOpen (path : String) (res : Option GoError)
  | extractAttachment (eml dir : String) (res : Except GoError Bool)
  | remove (path : String) (res : Option GoError)
  | rename (oldpath newpath : String) (res : Option GoError)
  | close (path : String)
  | walk (root : String) (res : Option GoError)
  | readParse (path : String) (lookupAddr : Bool) (lookupLimit : Int)
      (res : Except GoError Report)
  | groupMergeReports (reports : List Report) (key : Option Tmpl)
      (res : Except GoError (List Report))
  | render (report : Report) (res : Option GoError)
  deriving DecidableEq

/-- The calls made so far, oldest first. -/
abbrev History (Report : Type) := List (Event Report)

/-- The answers of everything outside the two source files.  An answer may
depend on the calls made before it.  `txtTmpl`, `htmlTmpl` and
`htmlStaticTmpl` are the built-in template texts, `templateParses` tells
whether `html/template` accepts a text, `statIsNotExist` is
`os.IsNotExist` of the error of `os.Stat`, `outputDo` is `newOutput(cfg).do`. -/
structure Env (Report : Type) where
  readFile : History Report → String → Except GoError String
  yamlUnmarshal : String → Except GoError config
  templateParses : String → Bool
  txtTmpl : String
  htmlTmpl : String
  htmlStaticTmpl : String
  mkdirAll : History Report → String → Option GoError
  statIsNotExist : History Report → String → Bool
  glob : History Report → String → Except GoError (List String)
  osOpen : History Report → String → Option GoError
  extractAttachment : History Report → String → String → Except GoError Bool
  remove : History Report → String → Option GoError
  rename : History Report → String → String → Option GoError
  lstat : History Report → String → FsNode
  readParse : History Report → String → Bool → Int → Except GoError Report
  groupMergeReports : History Report → List Report → Option Tmpl → Except GoError (List Report)
  outputDo : History Report → config → Report → Option GoError

/-! ## `loadConfig` (`config.go`) -/

/-- How a call of `loadConfig` ends: it returns a configuration, it returns
an error, `template.Must` panics, or `log.Fatalf` ends the process. -/
inductive LoadOutcome where
  | ok (c : config)
  | error (err : GoError)
  | panic
  | fatal
  deriving DecidableEq, Repr

/-- The default of `merge_key`. -/
def defaultMergeKey : String :=
  "\x7b\x7b .ReportMetadata.OrgName \x7d\x7d!\x7b\x7b .ReportMetadata.Email \x7d\x7d!\x7b\x7b .PolicyPublished.Domain \x7d\x7d"

/-- The statement `template.Must(template.New(name).Funcs(tmplFuncs).Parse(text))`:
`none` stands for the panic. -/
def templateMust {Report : Type} (env : Env Report) (name text : String) : Option Tmpl :=
  if env.templateParses text then some ⟨name, text⟩ else none

/-- The tail of `loadConfig`, after the template text `t` is chosen: the
three templates are compiled and the archive directory is created. -/
def loadConfigCompile {Report : Type} (env : Env Report) (c : config) (t : String)
    (h : History Report) : LoadOutcome × History Report :=
  match templateMust env "report" t with
  | none => (.panic, h)
  | some tmpl =>
    let c := { c with Output := { c.Output with template := some tmpl } }
    let ft : Option (Option Tmpl) :=
      if !c.Output.isStdout then
        (templateMust env "filename" c.Output.File).map some
      else some c.Output.fileTemplate
    match ft with
    | none => (.panic, h)
    | some fileTemplate =>
      let c := { c with Output := { c.Output with fileTemplate := fileTemplate } }
      match templateMust env "merge_key" c.MergeKey with
      | none => (.panic, h)
      | some mk =>
        let c := { c with Output := { c.Output with mergeKeyTemplate := some mk } }
        let err := env.mkdirAll h c.Input.ArchiveDir
        let h := h ++ [Event.mkdirAll c.Input.ArchiveDir err]
        match err with
        | some e => if !e.isExist then (.fatal, h) else (.ok c, h)
        | none => (.ok c, h)

/-- The function `loadConfig`. -/
def loadConfig {Report : Type} (env : Env Report) (path : String)
    (h : History Report) : LoadOutcome × History Report :=
  let rd := env.readFile h path
  let h := h ++ [Event.readFile path rd]
  match rd with
  | .error err => (.error err, h)
  | .ok data =>
    match env.yamlUnmarshal data with
    | .error err => (.error err, h)
    | .ok c =>
      let c := if c.LookupLimit < 1 then { c with LookupLimit := 50 } else c
      if c.Input.Dir = "" then
        (.error (errorf "input.dir is not configured"), h)
      else if c.Input.Delete && c.Input.ArchiveDir != "" then
        (.error (errorf "input.delete and input.archive_dir are mutually exclusive"), h)
      else
        let c := { c with Input := { c.Input with Dir := filepathClean c.Input.Dir } }
        let c := { c with Input := { c.Input with ArchiveDir := filepathClean c.Input.ArchiveDir } }
        let c := { c with Output :=
          { c.Output with ExternalTemplate := filepathClean c.Output.ExternalTemplate } }
        if c.Input.Dir = c.Input.ArchiveDir then
          (.error (errorf "input.dir and input.archive_dir are the same location"), h)
        else
          let c := if c.Input.IMAP.Security = "" then
              { c with Input := { c.Input with IMAP := { c.Input.IMAP with Security := "tls" } } }
            else c
          if c.Input.IMAP.Security ≠ "tls" && c.Input.IMAP.Security ≠ "starttls"
              && c.Input.IMAP.Security ≠ "plaintext" then
            (.error (errorf "'input.imap.security' must be one of: tls, starttls, plaintext"), h)
          else
            let c := if c.MergeKey = "" then { c with MergeKey := defaultMergeKey } else c
            if c.Output.Format = "txt" then loadConfigCompile env c env.txtTmpl h
            else if c.Output.Format = "html" then loadConfigCompile env c env.htmlTmpl h
            else if c.Output.Format = "html_static" then
              loadConfigCompile env c env.htmlStaticTmpl h
            else if c.Output.Format = "external_template" then
              if c.Output.ExternalTemplate = "" then
                (.error (errorf
                  "'output.external_template' must be configured to use external_template output"), h)
              else
                let rd := env.readFile h c.Output.ExternalTemplate
                let h := h ++ [Event.readFile c.Output.ExternalTemplate rd]
                match rd with
                | .error err => (.error err, h)
                | .ok data => loadConfigCompile env c data h
            else if c.Output.Format = "json" then loadConfigCompile env c env.txtTmpl h
            else
              (.error (errorf ("unable to found template for format '" ++ c.Output.Format
                ++ "' in templates folder")), h)

/-! ## Go's `filepath.Walk` -/

/-- What a `WalkFunc` returns: `nil`, `filepath.SkipDir`, or another error. -/
inductive WalkRet where
  | nil
  | skipDir
  | err (e : GoError)
  deriving DecidableEq, Repr

mutual
/-- Go's `walk(path, info, walkFn)`.  For a directory the names are read
first and the function is called with the read error; the walk descends only
when both are `nil`.  The function receives the path, `info.IsDir()` and
the error; a root whose `Lstat` failed is given to it with that error. -/
def walk {α : Type} (fn : String → Bool → Option GoError → α → WalkRet × α)
    (path : String) : FsNode → α → WalkRet × α
  | .file, a => fn path false none a
  | .noStat e, a => fn path false (some e) a
  | .dir readErr entries, a =>
    match fn path true readErr a with
    | (err1, a) =>
      if readErr.isSome || err1 ≠ WalkRet.nil then (err1, a)
      else walkEntries fn path entries a
/-- The loop of `walk` over the names of a directory: a name whose `Lstat`
fails is given to the function, and only an error other than `SkipDir`
stops the walk there; otherwise the entry is walked, and the walk stops on
an error, save `SkipDir` coming back from a directory. -/
def walkEntries {α : Type} (fn : String → Bool → Option GoError → α → WalkRet × α)
    (path : String) : FsEntries → α → WalkRet × α
  | .nil, a => (WalkRet.nil, a)
  | .cons name node rest, a =>
    match node with
    | .noStat e =>
      match fn (filepathJoin path name) false (some e) a with
      | (.err e1, a) => (.err e1, a)
      | (_, a) => walkEntries fn path rest a
    | .file =>
      match walk fn (filepathJoin path name) .file a with
      | (.nil, a) => walkEntries fn path rest a
      | (r, a) => (r, a)
    | .dir readErr entries =>
      match walk fn (filepathJoin path name) (.dir readErr entries) a with
      | (.err e1, a) => (.err e1, a)
      | (_, a) => walkEntries fn path rest a
end

/-- Go's `filepath.Walk(root, fn)` over what the file system shows at `root`:
`SkipDir` from the root is not an error. -/
def filepathWalk {α : Type} (root : String) (node : FsNode)
    (fn : String → Bool → Option GoError → α → WalkRet × α) (a : α) : Option GoError × α :=
  match walk fn root node a with
  | (.err e, a) => (some e, a)
  | (_, a) => (none, a)

/-! ## `filesConverter` (`files.go`) -/

/-- The run state of the converter. -/
structure filesConverter (Report : Type) where
  cfg : config
  files : List String
  filesSuccess : List String
  reports : List Report
  deriving DecidableEq

/-- The loop of `find` over the `.eml` files.  `br.Close()` is reached only
when no `continue` was taken. -/
def findEmlLoop {Report : Type} (env : Env Report) (cfg : config) :
    List String → History Report → History Report
  | [], h => h
  | eml :: rest, h =>
    let o := env.osOpen h eml
    let h := h ++ [Event.osOpen eml o]
    match o with
    | some _ => findEmlLoop env cfg rest h
    | none =>
      let x := env.extractAttachment h eml cfg.Input.Dir
      let h := h ++ [Event.extractAttachment eml cfg.Input.Dir x]
      match x with
      | .error _ => findEmlLoop env cfg rest h
      | .ok isSuccess =>
        if isSuccess then
          if cfg.Input.Delete then
            let r := env.remove h eml
            let h := h ++ [Event.remove eml r]
            match r with
            | some _ => findEmlLoop env cfg rest h
            | none => findEmlLoop env cfg rest (h ++ [Event.close eml])
          else if cfg.Input.ArchiveDir ≠ "" then
            let newpath := filepathJoin cfg.Input.ArchiveDir (filepathBase eml)
            let r := env.rename h eml newpath
            let h := h ++ [Event.rename eml newpath r]
            match r with
            | some _ => findEmlLoop env cfg rest h
            | none => findEmlLoop env cfg rest (h ++ [Event.close eml])
          else findEmlLoop env cfg rest (h ++ [Event.close eml])
        else findEmlLoop env cfg rest (h ++ [Event.close eml])

/-- The function given to `filepath.Walk` in `find`; `files` is the slice it
appends to. -/
def findWalkFn (cfg : config) (path : String) (isDir : Bool) (err : Option GoError)
    (files : List String) : WalkRet × List String :=
  match err with
  | some e => (.err e, files)
  | none =>
    if isDir then
      if path ≠ cfg.Input.Dir then (.skipDir, files) else (.nil, files)
    else if filepathExt path ≠ ".eml" then (.nil, files ++ [path])
    else (.nil, files)

/-- The method `find`. -/
def find {Report : Type} (env : Env Report) (c : filesConverter Report)
    (h : History Report) : Option GoError × filesConverter Report × History Report :=
  let pattern := filepathJoin c.cfg.Input.Dir "*.eml"
  let g := env.glob h pattern
  let h := h ++ [Event.glob pattern g]
  match g with
  | .error err => (some err, c, h)
  | .ok emlFiles =>
    let h := if emlFiles.length > 0 then findEmlLoop env c.cfg emlFiles h else h
    match filepathWalk c.cfg.Input.Dir (env.lstat h c.cfg.Input.Dir) (findWalkFn c.cfg) [] with
    | (some err, _) => (some err, c, h ++ [Event.walk c.cfg.Input.Dir (some err)])
    | (none, files) => (none, { c with files := files }, h ++ [Event.walk c.cfg.Input.Dir none])

/-- The loop of `convert`. -/
def convertLoop {Report : Type} (env : Env Report) (cfg : config) :
    List String → List String → List Report → History Report →
      List String × List Report × History Report
  | [], filesSuccess, reports, h => (filesSuccess, reports, h)
  | f :: rest, filesSuccess, reports, h =>
    let o := env.osOpen h f
    let h := h ++ [Event.osOpen f o]
    match o with
    | some _ => convertLoop env cfg rest filesSuccess reports h
    | none =>
      let r := env.readParse h f cfg.LookupAddr cfg.LookupLimit
      let h := h ++ [Event.readParse f cfg.LookupAddr cfg.LookupLimit r]
      match r with
      | .error _ => convertLoop env cfg rest filesSuccess reports (h ++ [Event.close f])
      | .ok report =>
        convertLoop env cfg rest (filesSuccess ++ [f]) (reports ++ [report])
          (h ++ [Event.close f])

/-- The method `convert`; it has no error result. -/
def convert {Report : Type} (env : Env Report) (c : filesConverter Report)
    (h : History Report) : filesConverter Report × History Report :=
  match convertLoop env c.cfg c.files [] [] h with
  | (filesSuccess, reports, h) => ({ c with filesSuccess := filesSuccess, reports := reports }, h)

/-- The method `merge`. -/
def merge {Report : Type} (env : Env Report) (c : filesConverter Report)
    (h : History Report) : Option GoError × filesConverter Report × History Report :=
  let m := env.groupMergeReports h c.reports c.cfg.Output.mergeKeyTemplate
  let h := h ++ [Event.groupMergeReports c.reports c.cfg.Output.mergeKeyTemplate m]
  match m with
  | .error err => (some err, c, h)
  | .ok reports => (none, { c with reports := reports }, h)

/-- The loop of `archive`. -/
def archiveLoop {Report : Type} (env : Env Report) (cfg : config) :
    List String → History Report → History Report
  | [], h => h
  | f :: rest, h =>
    let newpath := filepathJoin cfg.Input.ArchiveDir (filepathBase f)
    let r := env.rename h f newpath
    archiveLoop env cfg rest (h ++ [Event.rename f newpath r])

/-- The method `archive`. -/
def archive {Report : Type} (env : Env Report) (c : filesConverter Report)
    (h : History Report) : History Report :=
  archiveLoop env c.cfg c.filesSuccess h

/-- The loop of `delete`. -/
def deleteLoop {Report : Type} (env : Env Report) :
    List String → History Report → History Report
  | [], h => h
  | f :: rest, h =>
    let r := env.remove h f
    deleteLoop env rest (h ++ [Event.remove f r])

/-- The method `delete`. -/
def delete {Report : Type} (env : Env Report) (c : filesConverter Report)
    (h : History Report) : History Report :=
  deleteLoop env c.filesSuccess h

/-- The loop of `write`: the first failing render ends it. -/
def writeLoop {Report : Type} (env : Env Report) (cfg : config) :
    List Report → History Report → Option GoError × History Report
  | [], h => (none, h)
  | report :: rest, h =>
    let err := env.outputDo h cfg report
    let h := h ++ [Event.render report err]
    match err with
    | some e => (some e, h)
    | none => writeLoop env cfg rest h

/-- The method `write`. -/
def write {Report : Type} (env : Env Report) (c : filesConverter Report)
    (h : History Report) : Option GoError × History Report :=
  writeLoop env c.cfg c.reports h

/-- The method `ConvertWrite`: the error it returns, the converter and the
history when it returns. -/
def ConvertWrite {Report : Type} (env : Env Report) (c : filesConverter Report)
    (h : History Report) : Option GoError × filesConverter Report × History Report :=
  match find env c h with
  | (some err, c, h) => (some err, c, h)
  | (none, c, h) =>
    match convert env c h with
    | (c, h) =>
      match (if c.cfg.MergeReports then merge env c h else (none, c, h)) with
      | (some err, c, h) => (some err, c, h)
      | (none, c, h) =>
        match write env c h with
        | (some err, h) => (some err, c, h)
        | (none, h) =>
          if c.cfg.Input.Delete then (none, c, delete env c h)
          else if c.cfg.Input.ArchiveDir ≠ "" then (none, c, archive env c h)
          else (none, c, h)

/-- The function `newFilesConverter`: the input directory is created when
`os.Stat` says that it does not exist. -/
def newFilesConverter {Report : Type} (env : Env Report) (cfg : config)
    (h : History Report) : Except GoError (filesConverter Report) × History Report :=
  let notExist := env.statIsNotExist h cfg.Input.Dir
  let h := h ++ [Event.stat cfg.Input.Dir notExist]
  if notExist then
    let err := env.mkdirAll h cfg.Input.Dir
    let h := h ++ [Event.mkdirAll cfg.Input.Dir err]
    match err with
    | some e => (.error e, h)
    | none => (.ok { cfg := cfg, files := [], filesSuccess := [], reports := [] }, h)
  else (.ok { cfg := cfg, files := [], filesSuccess := [], reports := [] }, h)

/-! ## `loadConfig` in stages -/

/-- Lines 116 to 136 of `config.go` and what follows: the choice of the
template text by `Output.Format`. -/
def loadConfigFormat {Report : Type} (env : Env Report) (c : config)
    (h : History Report) : LoadOutcome × History Report :=
  if c.Output.Format = "txt" then loadConfigCompile env c env.txtTmpl h
  else if c.Output.Format = "html" then loadConfigCompile env c env.htmlTmpl h
  else if c.Output.Format = "html_static" then
    loadConfigCompile env c env.htmlStaticTmpl h
  else if c.Output.Format = "external_template" then
    if c.Output.ExternalTemplate = "" then
      (.error (errorf
        "'output.external_template' must be configured to use external_template output"), h)
    else
      let rd := env.readFile h c.Output.ExternalTemplate
      let h := h ++ [Event.readFile c.Output.ExternalTemplate rd]
      match rd with
      | .error err => (.error err, h)
      | .ok data => loadConfigCompile env c data h
  else if c.Output.Format = "json" then loadConfigCompile env c env.txtTmpl h
  else
    (.error (errorf ("unable to found template for format '" ++ c.Output.Format
      ++ "' in templates folder")), h)

/-- Lines 104 to 114 of `config.go` and what follows. -/
def loadConfigSecurity {Report : Type} (env : Env Report) (c : config)
    (h : History Report) : LoadOutcome × History Report :=
  let c := if c.Input.IMAP.Security = "" then
      { c with Input := { c.Input with IMAP := { c.Input.IMAP with Security := "tls" } } }
    else c
  if c.Input.IMAP.Security ≠ "tls" && c.Input.IMAP.Security ≠ "starttls"
      && c.Input.IMAP.Security ≠ "plaintext" then
    (.error (errorf "'input.imap.security' must be one of: tls, starttls, plaintext"), h)
  else
    let c := if c.MergeKey = "" then { c with MergeKey := defaultMergeKey } else c
    loadConfigFormat env c h

/-- Lines 88 to 102 of `config.go` and what follows. -/
def loadConfigPaths {Report : Type} (env : Env Report) (c : config)
    (h : History Report) : LoadOutcome × History Report :=
  if c.Input.Dir = "" then
    (.error (errorf "input.dir is not configured"), h)
  else if c.Input.Delete && c.Input.ArchiveDir != "" then
    (.error (errorf "input.delete and input.archive_dir are mutually exclusive"), h)
  else
    let c := { c with Input := { c.Input with Dir := filepathClean c.Input.Dir } }
    let c := { c with Input := { c.Input with ArchiveDir := filepathClean c.Input.ArchiveDir } }
    let c := { c with Output :=
      { c.Output with ExternalTemplate := filepathClean c.Output.ExternalTemplate } }
    if c.Input.Dir = c.Input.ArchiveDir then
      (.error (errorf "input.dir and input.archive_dir are the same location"), h)
    else loadConfigSecurity env c h


/-! ## Concrete worlds -/

/-- A configuration document with only `input.dir` and `output.format` set. -/
def plainDoc (dir format : String) : config :=
  { Input := { Dir := dir, IMAP := ⟨"", "", "", "", false, false, ""⟩, Delete := false,
               ArchiveDir := "" },
    Output := { File := "", fileTemplate := none, Format := format, Template := "",
                template := none, AssetsPath := "", ExternalTemplate := "",
                mergeKeyTemplate := none },
    LookupAddr := false, LookupLimit := 0, MergeReports := false, MergeKey := "",
    LogDebug := false, LogDatetime := false }

/-- A world in which every call succeeds: the configuration file decodes to
`doc`, the input directory exists and is empty, a report is named by its
file. -/
def quietEnv (doc : config) : Env String where
  readFile := fun _ _ => .ok ""
  yamlUnmarshal := fun _ => .ok doc
  templateParses := fun _ => true
  txtTmpl := "txt"
  htmlTmpl := "html"
  htmlStaticTmpl := "html_static"
  mkdirAll := fun _ _ => none
  statIsNotExist := fun _ _ => false
  glob := fun _ _ => .ok []
  osOpen := fun _ _ => none
  extractAttachment := fun _ _ _ => .ok true
  remove := fun _ _ => none
  rename := fun _ _ _ => none
  lstat := fun _ _ => .dir none .nil
  readParse := fun _ f _ _ => .ok f
  groupMergeReports := fun _ reports _ => .ok reports
  outputDo := fun _ _ _ => none

/-- What `loadConfig` makes of `plainDoc dir "txt"` in a quiet world. -/
def plainLoaded (dir : String) : config :=
  { Input := { Dir := dir, IMAP := ⟨"", "", "", "", false, false, "tls"⟩, Delete := false,
               ArchiveDir := "." },
    Output := { File := "", fileTemplate := none, Format := "txt", Template := "",
                template := some ⟨"report", "txt"⟩, AssetsPath := "", ExternalTemplate := ".",
                mergeKeyTemplate := some ⟨"merge_key", defaultMergeKey⟩ },
    LookupAddr := false, LookupLimit := 50, MergeReports := false, MergeKey := defaultMergeKey,
    LogDebug := false, LogDatetime := false }

/-- A document with `input.delete` and `input.archive_dir` both set. -/
def deleteArchiveDoc : config :=
  { plainDoc "/in" "txt" with
    Input := { (plainDoc "/in" "txt").Input with Delete := true, ArchiveDir := "/archive" } }

/-- A document with an archive directory. -/
def archiveDoc : config :=
  { plainDoc "/in" "txt" with
    Input := { (plainDoc "/in" "txt").Input with ArchiveDir := "/archive" } }

/-- A world in which the archive directory cannot be created. -/
def noArchiveEnv : Env String :=
  { quietEnv archiveDoc with
    mkdirAll := fun _ p => some ⟨"mkdir " ++ p ++ ": permission denied", false⟩ }

/-- A world in which only the configuration file can be read; reading
anything else fails the way reading a directory does. -/
def onlyConfigEnv (doc : config) : Env String :=
  { quietEnv doc with
    readFile := fun _ p =>
      if p = "config.yaml" then .ok "" else .error ⟨"read " ++ p ++ ": is a directory", false⟩ }

/-- The built-in template text that `loadConfig` takes for a format that
names no template file. -/
def builtinTemplate {Report : Type} (env : Env Report) (format : String) : String :=
  if format = "html" then env.htmlTmpl
  else if format = "html_static" then env.htmlStaticTmpl
  else env.txtTmpl

/-- What `loadConfig` makes of a document with `input.dir: /in`,
`input.delete: true` and `output.format: txt`. -/
def deleteLoaded : config :=
  { plainLoaded "/in" with Input := { (plainLoaded "/in").Input with Delete := true } }

/-- An input directory with three report files. -/
def threeFiles : FsNode :=
  .dir none (.cons "a.xml" .file (.cons "b.xml" .file (.cons "c.xml" .file .nil)))

/-- A world with one mail, whose attachment is extracted, and three report
files, in which the render of the second report fails. -/
def secondRenderFailsEnv : Env String :=
  { quietEnv (plainDoc "/in" "txt") with
    glob := fun _ _ => .ok ["/in/m.eml"]
    lstat := fun _ _ => threeFiles
    outputDo := fun _ _ r => if r = "/in/b.xml" then some (errorf "render failed") else none }

/-- A world with three report files in which the second does not parse. -/
def secondParseFailsEnv : Env String :=
  { quietEnv (plainDoc "/in" "txt") with
    lstat := fun _ _ => threeFiles
    readParse := fun _ f _ _ =>
      if f = "/in/b.xml" then .error (errorf "not a DMARC report") else .ok f }

/-- A world with one mail, whose attachment is extracted, and one report
file. -/
def mailAndReportEnv (doc : config) : Env String :=
  { quietEnv doc with
    glob := fun _ _ => .ok ["/in/m.eml"]
    lstat := fun _ _ => .dir none (.cons "r.xml" .file .nil) }

/-- The world of `mailAndReportEnv` in which every render fails. -/
def mailRenderFailsEnv : Env String :=
  { mailAndReportEnv (plainDoc "/in" "txt") with
    outputDo := fun _ _ _ => some (errorf "render failed") }

/-- A world in which the input directory cannot be read. -/
def unreadableDirEnv : Env String :=
  { quietEnv (plainDoc "/in" "txt") with
    lstat := fun _ _ => .dir (some ⟨"open /in: permission denied", false⟩) .nil }

/-- The converter that `newFilesConverter` returns for a configuration. -/
def startOf (cfg : config) : filesConverter String :=
  { cfg := cfg, files := [], filesSuccess := [], reports := [] }

/-! ## Reading a history -/

/-- The kind of call an event records. -/
inductive Kind where
  | readFile | mkdirAll | stat | glob | osOpen | extractAttachment | remove | rename
  | close | walk | readParse | groupMergeReports | render
  deriving DecidableEq, Repr

/-- The kind of an event. -/
def Event.kind {Report : Type} : Event Report → Kind
  | .readFile _ _ => .readFile
  | .mkdirAll _ _ => .mkdirAll
  | .stat _ _ => .stat
  | .glob _ _ => .glob
  | .osOpen _ _ => .osOpen
  | .extractAttachment _ _ _ => .extractAttachment
  | .remove _ _ => .remove
  | .rename _ _ _ => .rename
  | .close _ => .close
  | .walk _ _ => .walk
  | .readParse _ _ _ _ => .readParse
  | .groupMergeReports _ _ _ => .groupMergeReports
  | .render _ _ => .render

/-- The file an event removes or moves: the argument of `os.Remove`, the
first argument of `os.Rename`. -/
def Event.subject {Report : Type} : Event Report → Option String
  | .remove p _ => some p
  | .rename p _ _ => some p
  | _ => none

/-- The error of a failed glob, walk, merge or render; `none` for every
other event, failed or not. -/
def Event.abort {Report : Type} : Event Report → Option GoError
  | .glob _ (.error e) => some e
  | .walk _ (some e) => some e
  | .groupMergeReports _ _ (.error e) => some e
  | .render _ (some e) => some e
  | _ => none

/-- The path of an `os.Open`. -/
def Event.openedPath {Report : Type} : Event Report → Option String
  | .osOpen p _ => some p
  | _ => none

/-- The path of an `os.Open` that succeeded. -/
def Event.openedOkPath {Report : Type} : Event Report → Option String
  | .osOpen p none => some p
  | _ => none

/-- The path given to a `readParse`. -/
def Event.parseAttemptPath {Report : Type} : Event Report → Option String
  | .readParse p _ _ _ => some p
  | _ => none

/-- The path and the report of a `readParse` that succeeded. -/
def Event.parsedReport {Report : Type} : Event Report → Option (String × Report)
  | .readParse p _ _ (.ok r) => some (p, r)
  | _ => none

/-- Whether the event is an `os.Open` or a `readParse` that failed. -/
def Event.isParseFailure {Report : Type} : Event Report → Bool
  | .osOpen _ (some _) => true
  | .readParse _ _ _ (.error _) => true
  | _ => false

/-- The report and the outcome of a render. -/
def Event.rendered {Report : Type} : Event Report → Option (Report × Option GoError)
  | .render r res => some (r, res)
  | _ => none

/-- The paths opened, in order. -/
def opened {Report : Type} (t : History Report) : List String :=
  t.filterMap Event.openedPath

/-- The paths opened with success, in order. -/
def openedOk {Report : Type} (t : History Report) : List String :=
  t.filterMap Event.openedOkPath

/-- The paths given to `readParse`, in order. -/
def parseAttempts {Report : Type} (t : History Report) : List String :=
  t.filterMap Event.parseAttemptPath

/-- The files parsed with success and their reports, in order. -/
def parsed {Report : Type} (t : History Report) : List (String × Report) :=
  t.filterMap Event.parsedReport

/-- The number of failed opens and failed parses. -/
def failures {Report : Type} (t : History Report) : Nat :=
  t.countP Event.isParseFailure

/-- The renders, in order, each with its outcome. -/
def renders {Report : Type} (t : History Report) : List (Report × Option GoError) :=
  t.filterMap Event.rendered

/-- The report of a file when both its open and its parse succeed, for
answers `op` of `os.Open` and `rp` of `readParse` that depend on the file
only. -/
def parseOutcome {Report : Type} (op : String → Option GoError)
    (rp : String → Except GoError Report) (f : String) : Option Report :=
  match op f with
  | some _ => none
  | none =>
    match rp f with
    | .error _ => none
    | .ok r => some r

/-- No file of the list has the extension `.eml`. -/
def NoEml (files : List String) : Prop := ∀ f ∈ files, filepathExt f ≠ ".eml"

/-- The events of the `.eml` loop of `find` over the files `emls`: opens,
extractions, removals, renames and closes, and every removal or rename is
of one of these files, whose extraction succeeded in the same loop. -/
def EmlEvents {Report : Type} (cfg : config) (emls : List String) (t : History Report) : Prop :=
  (∀ ev ∈ t, ev.kind = Kind.osOpen ∨ ev.kind = Kind.extractAttachment ∨ ev.kind = Kind.remove ∨
    ev.kind = Kind.rename ∨ ev.kind = Kind.close) ∧
  (∀ ev ∈ t, ∀ p, ev.subject = some p →
    p ∈ emls ∧ Event.extractAttachment p cfg.Input.Dir (.ok true) ∈ t)

/-- The events of `convert` over `files` with the two lists it builds: every
candidate is opened once, in order; `readParse` is called exactly for the
files whose open succeeded; the succeeded files and the reports are the
successful parses, in order. -/
def ConvertEvents {Report : Type} (files : List String) (t : History Report)
    (filesSuccess : List String) (reports : List Report) : Prop :=
  (∀ ev ∈ t, ev.kind = Kind.osOpen ∨ ev.kind = Kind.readParse ∨ ev.kind = Kind.close) ∧
  opened t = files ∧ parseAttempts t = openedOk t ∧
  filesSuccess = (parsed t).map Prod.fst ∧ reports = (parsed t).map Prod.snd ∧
  (parsed t).length + failures t = files.length ∧
  filesSuccess.Sublist files

/-- The events of `delete` or `archive` over the succeeded files: one removal
per file when `Input.Delete` is set, else one rename per file into the
archive directory when `Input.ArchiveDir` is not empty, else none. -/
def LifecycleEvents {Report : Type} (cfg : config) (filesSuccess : List String)
    (t : History Report) : Prop :=
  if cfg.Input.Delete = true then
    t.length = filesSuccess.length ∧
    ∀ ev ∈ t, ∃ f res, f ∈ filesSuccess ∧ ev = Event.remove f res
  else if cfg.Input.ArchiveDir ≠ "" then
    t.length = filesSuccess.length ∧
    ∀ ev ∈ t, ∃ f res, f ∈ filesSuccess ∧
      ev = Event.rename f (filepathJoin cfg.Input.ArchiveDir (filepathBase f)) res
  else t = []

/-- The events of an optional merge that succeeded. -/
def MergeEvents {Report : Type} (cfg : config) (before after : List Report)
    (t : History Report) : Prop :=
  if cfg.MergeReports = true then
    t = [Event.groupMergeReports before cfg.Output.mergeKeyTemplate (.ok after)]
  else t = [] ∧ after = before

/-- The ways a run of `ConvertWrite` from the history `h` goes, by the events
`t` it adds to the history, the error `res` it returns and the converter
`c1` it leaves; `found` is the error and the history that `find` returns. -/
inductive RunShape {Report : Type} (found : Option GoError × History Report)
    (h : History Report) (c : filesConverter Report) (res : Option GoError)
    (c1 : filesConverter Report) (t : History Report) : Prop where
  | globFails (e : GoError)
      (hfind : found.1 = some e)
      (hres : res = some e)
      (ht : t = [Event.glob (filepathJoin c.cfg.Input.Dir "*.eml") (.error e)])
  | walkFails (e : GoError) (emls : List String) (te : History Report)
      (hfind : found = (some e, h ++ (Event.glob (filepathJoin c.cfg.Input.Dir "*.eml")
        (.ok emls) :: te ++ [Event.walk c.cfg.Input.Dir (some e)])))
      (hres : res = some e)
      (hte : EmlEvents c.cfg emls te)
      (ht : t = Event.glob (filepathJoin c.cfg.Input.Dir "*.eml") (.ok emls) :: te ++
        [Event.walk c.cfg.Input.Dir (some e)])
  | mergeFails (e : GoError) (emls : List String) (te tc : History Report)
      (reports : List Report)
      (hfind : found = (none, h ++ (Event.glob (filepathJoin c.cfg.Input.Dir "*.eml") (.ok emls) ::
        te ++ [Event.walk c.cfg.Input.Dir none])))
      (hres : res = some e)
      (hcfg : c1.cfg = c.cfg)
      (hext : NoEml c1.files)
      (hmerge : c.cfg.MergeReports = true)
      (hte : EmlEvents c.cfg emls te)
      (htc : ConvertEvents c1.files tc c1.filesSuccess reports)
      (ht : t = Event.glob (filepathJoin c.cfg.Input.Dir "*.eml") (.ok emls) :: te ++
        [Event.walk c.cfg.Input.Dir none] ++ tc ++
        [Event.groupMergeReports reports c.cfg.Output.mergeKeyTemplate (.error e)])
  | renderFails (e : GoError) (emls : List String) (te tc tm : History Report)
      (parsedReports pre post : List Report) (r : Report)
      (hfind : found = (none, h ++ (Event.glob (filepathJoin c.cfg.Input.Dir "*.eml") (.ok emls) ::
        te ++ [Event.walk c.cfg.Input.Dir none])))
      (hres : res = some e)
      (hcfg : c1.cfg = c.cfg)
      (hext : NoEml c1.files)
      (hte : EmlEvents c.cfg emls te)
      (htc : ConvertEvents c1.files tc c1.filesSuccess parsedReports)
      (htm : MergeEvents c.cfg parsedReports c1.reports tm)
      (hreports : c1.reports = pre ++ r :: post)
      (ht : t = Event.glob (filepathJoin c.cfg.Input.Dir "*.eml") (.ok emls) :: te ++
        [Event.walk c.cfg.Input.Dir none] ++ tc ++ tm ++
        pre.map (fun x => Event.render x none) ++ [Event.render r (some e)])
  | succeeds (emls : List String) (te tc tm tl : History Report)
      (parsedReports : List Report)
      (hfind : found = (none, h ++ (Event.glob (filepathJoin c.cfg.Input.Dir "*.eml") (.ok emls) ::
        te ++ [Event.walk c.cfg.Input.Dir none])))
      (hres : res = none)
      (hcfg : c1.cfg = c.cfg)
      (hext : NoEml c1.files)
      (hte : EmlEvents c.cfg emls te)
      (htc : ConvertEvents c1.files tc c1.filesSuccess parsedReports)
      (htm : MergeEvents c.cfg parsedReports c1.reports tm)
      (htl : LifecycleEvents c.cfg c1.filesSuccess tl)
      (ht : t = Event.glob (filepathJoin c.cfg.Input.Dir "*.eml") (.ok emls) :: te ++
        [Event.walk c.cfg.Input.Dir none] ++ tc ++ tm ++
        c1.reports.map (fun x => Event.render x none) ++ tl)

/-! ## Theorems about `loadConfig` -/

theorem cleanChars_ne_nil (p : List Char) : cleanChars p ≠ [] := by
  unfold cleanChars
  by_cases hr : p.head? = some '/'
  · simp [hr]
  · by_cases hb : joinSlash (List.foldl (cleanStep false) [] (splitSlash p)).reverse = []
    · simp [hr, hb]
    · simp [hr, hb]

/-- The result of `filepath.Clean` is never the empty string. -/
theorem filepathClean_ne_empty (p : String) : filepathClean p ≠ "" := by
  intro hp
  have h1 : (filepathClean p).data = "".data := by rw [hp]
  exact cleanChars_ne_nil p.data h1

/-- The function `loadConfig` is its stages one after the other. -/
theorem loadConfig_stages {Report : Type} (env : Env Report) (path : String)
    (h : History Report) :
    loadConfig env path h =
      match env.readFile h path with
      | .error err => (.error err, h ++ [Event.readFile path (.error err)])
      | .ok data =>
        match env.yamlUnmarshal data with
        | .error err => (.error err, h ++ [Event.readFile path (.ok data)])
        | .ok c =>
          loadConfigPaths env (if c.LookupLimit < 1 then { c with LookupLimit := 50 } else c)
            (h ++ [Event.readFile path (.ok data)]) := by
  unfold loadConfig
  cases env.readFile h path with
  | error e => rfl
  | ok data =>
    cases env.yamlUnmarshal data with
    | error e => rfl
    | ok c => rfl

/-- The fields of the configuration that a stage leaves as they are. -/
def Kept (c c1 : config) : Prop :=
  c1.LookupLimit = c.LookupLimit ∧ c1.Input.Dir = c.Input.Dir ∧
    c1.Input.Delete = c.Input.Delete ∧ c1.Input.ArchiveDir = c.Input.ArchiveDir ∧
    c1.MergeReports = c.MergeReports

theorem loadConfigCompile_ok {Report : Type} (env : Env Report) (c c1 : config) (t : String)
    (h h1 : History Report) (hok : loadConfigCompile env c t h = (LoadOutcome.ok c1, h1)) :
    Kept c c1 := by
  unfold loadConfigCompile at hok
  cases ht : templateMust env "report" t with
  | none => simp [ht] at hok
  | some tmpl =>
    simp only [ht] at hok
    split at hok
    · simp at hok
    · split at hok
      · simp at hok
      · split at hok
        · split at hok
          · simp at hok
          · simp only [Prod.mk.injEq, LoadOutcome.ok.injEq] at hok
            rw [← hok.1]
            simp [Kept]
        · simp only [Prod.mk.injEq, LoadOutcome.ok.injEq] at hok
          rw [← hok.1]
          simp [Kept]

theorem loadConfigFormat_ok {Report : Type} (env : Env Report) (c c1 : config)
    (h h1 : History Report) (hok : loadConfigFormat env c h = (LoadOutcome.ok c1, h1)) :
    Kept c c1 := by
  unfold loadConfigFormat at hok
  split at hok
  · exact loadConfigCompile_ok _ _ _ _ _ _ hok
  · split at hok
    · exact loadConfigCompile_ok _ _ _ _ _ _ hok
    · split at hok
      · exact loadConfigCompile_ok _ _ _ _ _ _ hok
      · split at hok
        · split at hok
          · simp at hok
          · cases hrd : env.readFile h c.Output.ExternalTemplate with
            | error e => simp [hrd] at hok
            | ok data =>
              simp only [hrd] at hok
              exact loadConfigCompile_ok _ _ _ _ _ _ hok
        · split at hok
          · exact loadConfigCompile_ok _ _ _ _ _ _ hok
          · simp at hok

theorem loadConfigSecurity_ok {Report : Type} (env : Env Report) (c c1 : config)
    (h h1 : History Report) (hok : loadConfigSecurity env c h = (LoadOutcome.ok c1, h1)) :
    Kept c c1 := by
  unfold loadConfigSecurity at hok
  by_cases hs : c.Input.IMAP.Security = "" <;> by_cases hm : c.MergeKey = "" <;>
    simp only [hs, hm, if_true, if_false] at hok <;>
    split at hok <;>
    first
      | (simp at hok)
      | (have hk := loadConfigFormat_ok _ _ _ _ _ hok; simpa [Kept] using hk)

theorem loadConfigPaths_ok {Report : Type} (env : Env Report) (c c1 : config)
    (h h1 : History Report) (hok : loadConfigPaths env c h = (LoadOutcome.ok c1, h1)) :
    c1.LookupLimit = c.LookupLimit ∧ c1.Input.Dir = filepathClean c.Input.Dir ∧
      c1.Input.Delete = c.Input.Delete ∧
      c1.Input.ArchiveDir = filepathClean c.Input.ArchiveDir ∧
      c1.MergeReports = c.MergeReports := by
  unfold loadConfigPaths at hok
  split at hok
  · simp at hok
  · split at hok
    · simp at hok
    · dsimp only at hok
      split at hok
      · simp at hok
      · have hk := loadConfigSecurity_ok _ _ _ _ _ hok
        simpa [Kept] using hk

/-- What a configuration returned by `loadConfig` owes to its document. -/
theorem loadConfig_ok_inv {Report : Type} (env : Env Report) (path : String)
    (h h1 : History Report) (c : config)
    (hok : loadConfig env path h = (LoadOutcome.ok c, h1)) :
    ∃ data doc, env.readFile h path = .ok data ∧ env.yamlUnmarshal data = .ok doc ∧
      c.LookupLimit = (if doc.LookupLimit < 1 then 50 else doc.LookupLimit) ∧
      c.Input.Dir = filepathClean doc.Input.Dir ∧
      c.Input.Delete = doc.Input.Delete ∧
      c.Input.ArchiveDir = filepathClean doc.Input.ArchiveDir ∧
      c.MergeReports = doc.MergeReports := by
  rw [loadConfig_stages] at hok
  cases hread : env.readFile h path with
  | error e => simp [hread] at hok
  | ok data =>
    cases hyaml : env.yamlUnmarshal data with
    | error e => simp [hread, hyaml] at hok
    | ok doc =>
      refine ⟨data, doc, rfl, hyaml, ?_⟩
      simp only [hread, hyaml] at hok
      have hk := loadConfigPaths_ok _ _ _ _ _ hok
      by_cases hl : doc.LookupLimit < 1 <;> simpa [hl] using hk

/-- C5: for a configuration document with `input.delete` true and a non-empty
`input.archive_dir`, `loadConfig` returns a configuration error and no
configuration, whatever the other fields are: the error that `input.dir` is
not configured when that is empty, the mutual-exclusion error otherwise. -/
theorem loadConfig_delete_archive_exclusive {Report : Type} (env : Env Report) (path : String)
    (h : History Report) (data : String) (doc : config)
    (hread : env.readFile h path = .ok data) (hyaml : env.yamlUnmarshal data = .ok doc)
    (hdel : doc.Input.Delete = true) (harch : doc.Input.ArchiveDir ≠ "") :
    loadConfig env path h =
      (LoadOutcome.error
        (if doc.Input.Dir = "" then errorf "input.dir is not configured"
         else errorf "input.delete and input.archive_dir are mutually exclusive"),
       h ++ [Event.readFile path (.ok data)]) := by
  simp only [loadConfig, hread, hyaml]
  by_cases hl : doc.LookupLimit < 1 <;> by_cases hd : doc.Input.Dir = "" <;>
    simp [hl, hd, hdel, harch]

theorem loadConfig_delete_archive_exclusive_witness :
    loadConfig (quietEnv deleteArchiveDoc) "config.yaml" [] =
      (LoadOutcome.error (errorf "input.delete and input.archive_dir are mutually exclusive"),
       [Event.readFile "config.yaml" (.ok "")]) :=
  loadConfig_delete_archive_exclusive (quietEnv deleteArchiveDoc) "config.yaml" [] ""
    deleteArchiveDoc rfl rfl rfl (by decide)

/-- C10: a configuration returned by `loadConfig` has a `LookupLimit` of at
least 1: it is 50 when the document has a value below 1 (0 when the key is
absent) and the value of the document, unchanged, when that is 1 or more. -/
theorem loadConfig_lookupLimit {Report : Type} (env : Env Report) (path : String)
    (h h1 : History Report) (c : config)
    (hok : loadConfig env path h = (LoadOutcome.ok c, h1)) :
    ∃ data doc, env.readFile h path = .ok data ∧ env.yamlUnmarshal data = .ok doc ∧
      1 ≤ c.LookupLimit ∧ (doc.LookupLimit < 1 → c.LookupLimit = 50) ∧
      (1 ≤ doc.LookupLimit → c.LookupLimit = doc.LookupLimit) := by
  obtain ⟨data, doc, hread, hyaml, hlim, _⟩ := loadConfig_ok_inv env path h h1 c hok
  refine ⟨data, doc, hread, hyaml, ?_, ?_, ?_⟩
  · rw [hlim]; split <;> omega
  · intro hl; rw [hlim]; simp [hl]
  · intro hl; rw [hlim]; simp; omega

theorem loadConfig_lookupLimit_witness :
    loadConfig (quietEnv (plainDoc "/in" "txt")) "config.yaml" [] =
        (LoadOutcome.ok (plainLoaded "/in"),
         [Event.readFile "config.yaml" (.ok ""), Event.mkdirAll "." none]) ∧
      ∃ data doc, (quietEnv (plainDoc "/in" "txt")).readFile [] "config.yaml" = .ok data ∧
        (quietEnv (plainDoc "/in" "txt")).yamlUnmarshal data = .ok doc ∧
        1 ≤ (plainLoaded "/in").LookupLimit ∧
        (doc.LookupLimit < 1 → (plainLoaded "/in").LookupLimit = 50) ∧
        (1 ≤ doc.LookupLimit → (plainLoaded "/in").LookupLimit = doc.LookupLimit) :=
  ⟨rfl, loadConfig_lookupLimit (quietEnv (plainDoc "/in" "txt")) "config.yaml" []
    [Event.readFile "config.yaml" (.ok ""), Event.mkdirAll "." none] (plainLoaded "/in") rfl⟩

/-- When the three templates compile and the archive directory can be made,
`loadConfigCompile` returns the configuration with the compiled templates. -/
theorem loadConfigCompile_success {Report : Type} (env : Env Report) (c : config) (t : String)
    (h : History Report) (ht : env.templateParses t = true)
    (hfile : c.Output.isStdout = false → env.templateParses c.Output.File = true)
    (hkey : env.templateParses c.MergeKey = true)
    (hmk : ∀ e, env.mkdirAll h c.Input.ArchiveDir = some e → e.isExist = true) :
    ∃ c1, loadConfigCompile env c t h =
        (LoadOutcome.ok c1,
          h ++ [Event.mkdirAll c.Input.ArchiveDir (env.mkdirAll h c.Input.ArchiveDir)]) ∧
      c1.Output.template = some ⟨"report", t⟩ ∧ c1.Output.Format = c.Output.Format := by
  unfold loadConfigCompile
  simp only [templateMust, ht, hkey, if_true]
  by_cases hs : c.Output.isStdout = true
  · have hs2 : (c.Output.File = "" ∨ c.Output.File = "stdout") := by
      simpa [Output.isStdout] using hs
    cases hm : env.mkdirAll h c.Input.ArchiveDir with
    | none => simp [Output.isStdout, hs2]
    | some e => simp [Output.isStdout, hs2, hmk e hm]
  · have hs1 : c.Output.isStdout = false := by simpa using hs
    have hs2 : ¬ (c.Output.File = "" ∨ c.Output.File = "stdout") := by
      simpa [Output.isStdout] using hs
    cases hm : env.mkdirAll h c.Input.ArchiveDir with
    | none => simp [Output.isStdout, hs2, hfile hs1]
    | some e => simp [Output.isStdout, hs2, hfile hs1, hmk e hm]

/-- A document that passes the checks on `input.dir` and
`input.archive_dir` goes on to the IMAP check with its paths cleaned. -/
theorem loadConfigPaths_pass {Report : Type} (env : Env Report) (c : config)
    (h : History Report) (hdir : c.Input.Dir ≠ "")
    (hexcl : ¬ (c.Input.Delete = true ∧ c.Input.ArchiveDir ≠ ""))
    (hsame : filepathClean c.Input.Dir ≠ filepathClean c.Input.ArchiveDir) :
    ∃ c2, loadConfigPaths env c h = loadConfigSecurity env c2 h ∧
      c2.Input.IMAP = c.Input.IMAP ∧ c2.Input.ArchiveDir = filepathClean c.Input.ArchiveDir ∧
      c2.Output.Format = c.Output.Format ∧ c2.Output.File = c.Output.File ∧
      c2.Output.ExternalTemplate = filepathClean c.Output.ExternalTemplate ∧
      c2.MergeKey = c.MergeKey := by
  unfold loadConfigPaths
  have hx : (c.Input.Delete && c.Input.ArchiveDir != "") = false := by
    cases hd : c.Input.Delete with
    | false => simp
    | true =>
      have : c.Input.ArchiveDir = "" := by
        by_contra hne
        exact hexcl ⟨hd, hne⟩
      simp [this]
  simp only [hdir, hx, hsame, if_false, Bool.false_eq_true]
  exact ⟨_, rfl, rfl, rfl, rfl, rfl, rfl, rfl⟩

/-- A document whose IMAP security is absent or one of the three modes goes
on to the choice of the template with its merge key defaulted. -/
theorem loadConfigSecurity_pass {Report : Type} (env : Env Report) (c : config)
    (h : History Report)
    (himap : c.Input.IMAP.Security = "" ∨ c.Input.IMAP.Security = "tls" ∨
      c.Input.IMAP.Security = "starttls" ∨ c.Input.IMAP.Security = "plaintext") :
    ∃ c2, loadConfigSecurity env c h = loadConfigFormat env c2 h ∧
      c2.Input.ArchiveDir = c.Input.ArchiveDir ∧ c2.Output = c.Output ∧
      c2.MergeKey = (if c.MergeKey = "" then defaultMergeKey else c.MergeKey) := by
  unfold loadConfigSecurity
  by_cases hm : c.MergeKey = "" <;> rcases himap with hs | hs | hs | hs <;>
    simp [hs, hm] <;>
    exact ⟨_, rfl, rfl, rfl, rfl⟩

/-- The four formats that name no template file compile the built-in text. -/
theorem loadConfigFormat_builtin {Report : Type} (env : Env Report) (c : config)
    (h : History Report)
    (hfmt : c.Output.Format = "txt" ∨ c.Output.Format = "html" ∨
      c.Output.Format = "html_static" ∨ c.Output.Format = "json") :
    loadConfigFormat env c h =
      loadConfigCompile env c (builtinTemplate env c.Output.Format) h := by
  unfold loadConfigFormat builtinTemplate
  rcases hfmt with hf | hf | hf | hf <;> simp [hf]

/-- A format outside the five known ones is refused. -/
theorem loadConfigFormat_unknown {Report : Type} (env : Env Report) (c : config)
    (h : History Report)
    (hfmt : c.Output.Format ≠ "txt" ∧ c.Output.Format ≠ "html" ∧
      c.Output.Format ≠ "html_static" ∧ c.Output.Format ≠ "json" ∧
      c.Output.Format ≠ "external_template") :
    loadConfigFormat env c h =
      (LoadOutcome.error (errorf ("unable to found template for format '" ++ c.Output.Format
        ++ "' in templates folder")), h) := by
  unfold loadConfigFormat
  simp [hfmt.1, hfmt.2.1, hfmt.2.2.1, hfmt.2.2.2.1, hfmt.2.2.2.2]

/-- C7, amended: for a configuration document with a non-empty `input.dir`,
not both `input.delete` and `input.archive_dir`, an `input.archive_dir`
that does not normalize to `input.dir`, an IMAP security that is absent or
one of `tls`, `starttls`, `plaintext`, and filename and merge-key templates
that compile: if `output.format` is `txt`, `html`, `html_static` or `json`,
the built-in template compiles and the archive directory can be created or
exists, then `loadConfig` returns a configuration, whatever
`output.external_template` is, and the only file it reads is the
configuration file; if `output.format` is none of `txt`, `html`,
`html_static`, `json`, `external_template`, then `loadConfig` returns an
error. -/
theorem loadConfig_format {Report : Type} (env : Env Report) (path : String)
    (h : History Report) (data : String) (doc : config)
    (hread : env.readFile h path = .ok data) (hyaml : env.yamlUnmarshal data = .ok doc)
    (hdir : doc.Input.Dir ≠ "")
    (hexcl : ¬ (doc.Input.Delete = true ∧ doc.Input.ArchiveDir ≠ ""))
    (hsame : filepathClean doc.Input.Dir ≠ filepathClean doc.Input.ArchiveDir)
    (himap : doc.Input.IMAP.Security = "" ∨ doc.Input.IMAP.Security = "tls" ∨
      doc.Input.IMAP.Security = "starttls" ∨ doc.Input.IMAP.Security = "plaintext")
    (hfile : doc.Output.isStdout = false → env.templateParses doc.Output.File = true)
    (hkey : env.templateParses
      (if doc.MergeKey = "" then defaultMergeKey else doc.MergeKey) = true) :
    ((doc.Output.Format = "txt" ∨ doc.Output.Format = "html" ∨
        doc.Output.Format = "html_static" ∨ doc.Output.Format = "json") →
      env.templateParses (builtinTemplate env doc.Output.Format) = true →
      (∀ e, env.mkdirAll (h ++ [Event.readFile path (.ok data)])
          (filepathClean doc.Input.ArchiveDir) = some e → e.isExist = true) →
      ∃ c, loadConfig env path h =
          (LoadOutcome.ok c,
            h ++ [Event.readFile path (.ok data)] ++
              [Event.mkdirAll (filepathClean doc.Input.ArchiveDir)
                (env.mkdirAll (h ++ [Event.readFile path (.ok data)])
                  (filepathClean doc.Input.ArchiveDir))]) ∧
        c.Output.template = some ⟨"report", builtinTemplate env doc.Output.Format⟩ ∧
        c.Output.Format = doc.Output.Format) ∧
    ((doc.Output.Format ≠ "txt" ∧ doc.Output.Format ≠ "html" ∧
        doc.Output.Format ≠ "html_static" ∧ doc.Output.Format ≠ "json" ∧
        doc.Output.Format ≠ "external_template") →
      loadConfig env path h =
        (LoadOutcome.error (errorf ("unable to found template for format '" ++
          doc.Output.Format ++ "' in templates folder")),
         h ++ [Event.readFile path (.ok data)])) := by
  rw [loadConfig_stages]
  simp only [hread, hyaml]
  have key : ∀ c0 : config, c0.Input = doc.Input → c0.Output = doc.Output →
      c0.MergeKey = doc.MergeKey →
      ∃ c2, loadConfigPaths env c0 (h ++ [Event.readFile path (.ok data)]) =
          loadConfigFormat env c2 (h ++ [Event.readFile path (.ok data)]) ∧
        c2.Input.ArchiveDir = filepathClean doc.Input.ArchiveDir ∧
        c2.Output.Format = doc.Output.Format ∧ c2.Output.File = doc.Output.File ∧
        c2.MergeKey = (if doc.MergeKey = "" then defaultMergeKey else doc.MergeKey) := by
    intro c0 hi ho hm
    obtain ⟨c1, e1, i1, a1, f1, o1, _, m1⟩ :=
      loadConfigPaths_pass env c0 (h ++ [Event.readFile path (.ok data)])
        (by rw [hi]; exact hdir) (by rw [hi]; exact hexcl) (by rw [hi]; exact hsame)
    obtain ⟨c2, e2, a2, o2, m2⟩ :=
      loadConfigSecurity_pass env c1 (h ++ [Event.readFile path (.ok data)])
        (by rw [i1, hi]; exact himap)
    refine ⟨c2, by rw [e1, e2], ?_, ?_, ?_, ?_⟩
    · rw [a2, a1, hi]
    · rw [o2, f1, ho]
    · rw [o2, o1, ho]
    · rw [m2, m1, hm]
  obtain ⟨c2, e2, a2, f2, o2, m2⟩ :=
    key (if doc.LookupLimit < 1 then { doc with LookupLimit := 50 } else doc)
      (by split <;> rfl) (by split <;> rfl) (by split <;> rfl)
  rw [e2]
  constructor
  · intro hfmt hbody hmk
    rw [loadConfigFormat_builtin env c2 _ (by rw [f2]; exact hfmt)]
    have hstd : c2.Output.isStdout = doc.Output.isStdout := by
      simp [Output.isStdout, o2]
    obtain ⟨c3, e3, t3, f3⟩ := loadConfigCompile_success env c2
      (builtinTemplate env c2.Output.Format) (h ++ [Event.readFile path (.ok data)])
      (by rw [f2]; exact hbody)
      (by rw [hstd, o2]; exact hfile) (by rw [m2]; exact hkey) (by rw [a2]; exact hmk)
    refine ⟨c3, ?_, ?_, ?_⟩
    · rw [e3, a2]
    · rw [t3, f2]
    · rw [f3, f2]
  · intro hfmt
    rw [loadConfigFormat_unknown env c2 _ (by rw [f2]; exact hfmt), f2]

theorem loadConfig_format_witness :
    (∃ c, loadConfig (quietEnv (plainDoc "/in" "html")) "config.yaml" [] =
        (LoadOutcome.ok c,
          [Event.readFile "config.yaml" (.ok ""), Event.mkdirAll "." none]) ∧
      c.Output.template = some ⟨"report", "html"⟩ ∧ c.Output.Format = "html") ∧
    loadConfig (quietEnv (plainDoc "/in" "xml")) "config.yaml" [] =
      (LoadOutcome.error (errorf "unable to found template for format 'xml' in templates folder"),
        [Event.readFile "config.yaml" (.ok "")]) :=
  ⟨(loadConfig_format (quietEnv (plainDoc "/in" "html")) "config.yaml" [] ""
      (plainDoc "/in" "html") rfl rfl (by decide) (by decide) (by decide) (by decide)
      (fun _ => rfl) rfl).1 (by decide) rfl (fun e he => by simp [quietEnv] at he),
   (loadConfig_format (quietEnv (plainDoc "/in" "xml")) "config.yaml" [] ""
      (plainDoc "/in" "xml") rfl rfl (by decide) (by decide) (by decide) (by decide)
      (fun _ => rfl) rfl).2 (by decide)⟩

/-- C7 as stated fails: the document passes the checks on `input.dir`, on
`input.delete` with `input.archive_dir` and on the IMAP security, every
template compiles and `output.format` is `txt`, but the archive directory
cannot be created, and `loadConfig` ends the process instead of returning a
configuration. -/
theorem loadConfig_txt_archive_fatal :
    archiveDoc.Input.Dir ≠ "" ∧
    ¬ (archiveDoc.Input.Delete = true ∧ archiveDoc.Input.ArchiveDir ≠ "") ∧
    filepathClean archiveDoc.Input.Dir ≠ filepathClean archiveDoc.Input.ArchiveDir ∧
    archiveDoc.Input.IMAP.Security = "" ∧
    (∀ t, noArchiveEnv.templateParses t = true) ∧
    archiveDoc.Output.Format = "txt" ∧
    noArchiveEnv.readFile [] "config.yaml" = .ok "" ∧
    noArchiveEnv.yamlUnmarshal "" = .ok archiveDoc ∧
    loadConfig noArchiveEnv "config.yaml" [] =
      (LoadOutcome.fatal,
        [Event.readFile "config.yaml" (.ok ""),
         Event.mkdirAll "/archive" (some ⟨"mkdir /archive: permission denied", false⟩)]) :=
  ⟨by decide, by decide, by decide, rfl, fun _ => rfl, rfl, rfl, rfl, rfl⟩

/-- The first half of C6 holds: a document whose `input.dir` and
`input.archive_dir` are equal after `filepath.Clean` is refused. -/
theorem loadConfig_same_location_error {Report : Type} (env : Env Report) (path : String)
    (h : History Report) (data : String) (doc : config)
    (hread : env.readFile h path = .ok data) (hyaml : env.yamlUnmarshal data = .ok doc)
    (hsame : filepathClean doc.Input.Dir = filepathClean doc.Input.ArchiveDir) :
    ∃ e, loadConfig env path h = (LoadOutcome.error e, h ++ [Event.readFile path (.ok data)]) ∧
      (e = errorf "input.dir is not configured" ∨
       e = errorf "input.delete and input.archive_dir are mutually exclusive" ∨
       e = errorf "input.dir and input.archive_dir are the same location") := by
  simp only [loadConfig, hread, hyaml]
  by_cases hl : doc.LookupLimit < 1 <;> by_cases hd : doc.Input.Dir = "" <;>
    by_cases hx : (doc.Input.Delete && doc.Input.ArchiveDir != "") = true <;>
    simp [hl, hd, hx, hsame]

/-- C6, second half, at `input.dir: "."` with no `input.archive_dir`: the
absent archive directory is cleaned to `"."`, and `loadConfig` returns the
same-location error although no archive directory was configured. -/
theorem loadConfig_dot_unset_archive_same_location :
    (plainDoc "." "txt").Input.ArchiveDir = "" ∧
    loadConfig (quietEnv (plainDoc "." "txt")) "config.yaml" [] =
      (LoadOutcome.error (errorf "input.dir and input.archive_dir are the same location"),
        [Event.readFile "config.yaml" (.ok "")]) :=
  ⟨rfl, rfl⟩

/-- With `output.format: external_template` and no `output.external_template`
a document that passes the earlier checks has the file `"."` read, and a
failure of that read is the error `loadConfig` returns. -/
theorem loadConfig_external_template_unset {Report : Type} (env : Env Report) (path : String)
    (h : History Report) (data : String) (doc : config)
    (hread : env.readFile h path = .ok data) (hyaml : env.yamlUnmarshal data = .ok doc)
    (hdir : doc.Input.Dir ≠ "")
    (hexcl : ¬ (doc.Input.Delete = true ∧ doc.Input.ArchiveDir ≠ ""))
    (hsame : filepathClean doc.Input.Dir ≠ filepathClean doc.Input.ArchiveDir)
    (himap : doc.Input.IMAP.Security = "" ∨ doc.Input.IMAP.Security = "tls" ∨
      doc.Input.IMAP.Security = "starttls" ∨ doc.Input.IMAP.Security = "plaintext")
    (hfmt : doc.Output.Format = "external_template")
    (hunset : doc.Output.ExternalTemplate = "") (err : GoError)
    (hdot : env.readFile (h ++ [Event.readFile path (.ok data)]) "." = .error err) :
    loadConfig env path h =
      (LoadOutcome.error err,
        h ++ [Event.readFile path (.ok data)] ++ [Event.readFile "." (.error err)]) := by
  rw [loadConfig_stages]
  simp only [hread, hyaml]
  have key : ∀ c0 : config, c0.Input = doc.Input → c0.Output = doc.Output →
      loadConfigPaths env c0 (h ++ [Event.readFile path (.ok data)]) =
        (LoadOutcome.error err,
          h ++ [Event.readFile path (.ok data)] ++ [Event.readFile "." (.error err)]) := by
    intro c0 hi ho
    obtain ⟨c1, e1, i1, _, f1, _, x1, _⟩ :=
      loadConfigPaths_pass env c0 (h ++ [Event.readFile path (.ok data)])
        (by rw [hi]; exact hdir) (by rw [hi]; exact hexcl) (by rw [hi]; exact hsame)
    obtain ⟨c2, e2, _, o2, _⟩ :=
      loadConfigSecurity_pass env c1 (h ++ [Event.readFile path (.ok data)])
        (by rw [i1, hi]; exact himap)
    have hf : c2.Output.Format = "external_template" := by rw [o2, f1, ho, hfmt]
    have hx : c2.Output.ExternalTemplate = "." := by
      rw [o2, x1, ho, hunset]; decide
    rw [e1, e2]
    unfold loadConfigFormat
    simp [hf, hx, hdot]
  exact key _ (by split <;> rfl) (by split <;> rfl)

/-- C8 at a document with `output.format: external_template` and no
`output.external_template`: the empty path is cleaned to `"."` before the
test for the empty string, so the file `"."` is read and the error
returned is the one of that read, not the error that
`output.external_template` must be configured. -/
theorem loadConfig_external_template_unset_reads_dot :
    (plainDoc "/in" "external_template").Output.ExternalTemplate = "" ∧
    loadConfig (onlyConfigEnv (plainDoc "/in" "external_template")) "config.yaml" [] =
      (LoadOutcome.error ⟨"read .: is a directory", false⟩,
        [Event.readFile "config.yaml" (.ok ""),
         Event.readFile "." (.error ⟨"read .: is a directory", false⟩)]) :=
  ⟨rfl, rfl⟩

/-! ## The candidate list -/

theorem findWalkFn_noEml (cfg : config) (path : String) (isDir : Bool) (err : Option GoError)
    (files : List String) (h : NoEml files) : NoEml (findWalkFn cfg path isDir err files).2 := by
  unfold findWalkFn
  cases err with
  | some e => exact h
  | none =>
    simp only []
    split
    · split <;> exact h
    · split
      · intro f hf
        rcases List.mem_append.mp hf with h1 | h1
        · exact h f h1
        · simp only [List.mem_singleton] at h1
          rw [h1]; assumption
      · exact h

mutual
/-- The walk of `find` collects no file with the extension `.eml`. -/
theorem walk_noEml (cfg : config) :
    ∀ (node : FsNode) (path : String) (a : List String), NoEml a →
      NoEml (walk (findWalkFn cfg) path node a).2
  | .file, path, a, h => by
    unfold walk
    exact findWalkFn_noEml cfg path false none a h
  | .noStat e, path, a, h => by
    unfold walk
    exact findWalkFn_noEml cfg path false (some e) a h
  | .dir readErr entries, path, a, h => by
    unfold walk
    have h1 := findWalkFn_noEml cfg path true readErr a h
    generalize findWalkFn cfg path true readErr a = r at h1
    obtain ⟨err1, a1⟩ := r
    simp only []
    split
    · exact h1
    · exact walkEntries_noEml cfg entries path a1 h1
/-- The loop of the walk over the names of a directory collects no file with
the extension `.eml`. -/
theorem walkEntries_noEml (cfg : config) :
    ∀ (entries : FsEntries) (path : String) (a : List String), NoEml a →
      NoEml (walkEntries (findWalkFn cfg) path entries a).2
  | .nil, path, a, h => by
    unfold walkEntries
    exact h
  | .cons name node rest, path, a, h => by
    unfold walkEntries
    cases node with
    | noStat e =>
      simp only []
      have h1 := findWalkFn_noEml cfg (filepathJoin path name) false (some e) a h
      generalize findWalkFn cfg (filepathJoin path name) false (some e) a = r at h1
      obtain ⟨r1, a1⟩ := r
      cases r1 with
      | err e1 => exact h1
      | nil => exact walkEntries_noEml cfg rest path a1 h1
      | skipDir => exact walkEntries_noEml cfg rest path a1 h1
    | file =>
      simp only []
      have h1 := walk_noEml cfg .file (filepathJoin path name) a h
      generalize walk (findWalkFn cfg) (filepathJoin path name) .file a = r at h1
      obtain ⟨r1, a1⟩ := r
      cases r1 with
      | nil => exact walkEntries_noEml cfg rest path a1 h1
      | err e1 => exact h1
      | skipDir => exact h1
    | dir readErr entries =>
      simp only []
      have h1 := walk_noEml cfg (.dir readErr entries) (filepathJoin path name) a h
      generalize walk (findWalkFn cfg) (filepathJoin path name) (.dir readErr entries) a = r at h1
      obtain ⟨r1, a1⟩ := r
      cases r1 with
      | err e1 => exact h1
      | nil => exact walkEntries_noEml cfg rest path a1 h1
      | skipDir => exact walkEntries_noEml cfg rest path a1 h1
end

/-- The files that `filepath.Walk` leaves to `find` have no `.eml` among
them. -/
theorem filepathWalk_noEml (cfg : config) (root : String) (node : FsNode) :
    NoEml (filepathWalk root node (findWalkFn cfg) []).2 := by
  unfold filepathWalk
  have h1 := walk_noEml cfg node root [] (by intro f hf; cases hf)
  generalize walk (findWalkFn cfg) root node [] = r at h1
  obtain ⟨r1, a1⟩ := r
  cases r1 <;> exact h1

/-! ## The events of each phase -/

theorem emlEvents_nil {Report : Type} (cfg : config) (emls : List String) :
    EmlEvents cfg emls ([] : History Report) := by
  simp [EmlEvents]

theorem emlEvents_mono {Report : Type} {cfg : config} {eml : String} {rest : List String}
    {t : History Report} (ht : EmlEvents cfg rest t) : EmlEvents cfg (eml :: rest) t :=
  ⟨ht.1, fun ev hev p hp => ⟨List.mem_cons_of_mem _ (ht.2 ev hev p hp).1, (ht.2 ev hev p hp).2⟩⟩

theorem emlEvents_append {Report : Type} {cfg : config} {emls : List String}
    {s t : History Report}
    (hs : EmlEvents cfg emls s) (ht : EmlEvents cfg emls t) : EmlEvents cfg emls (s ++ t) := by
  constructor
  · intro ev hev
    rcases List.mem_append.mp hev with h | h
    · exact hs.1 ev h
    · exact ht.1 ev h
  · intro ev hev p hp
    rcases List.mem_append.mp hev with h | h
    · exact ⟨(hs.2 ev h p hp).1, List.mem_append.mpr (Or.inl (hs.2 ev h p hp).2)⟩
    · exact ⟨(ht.2 ev h p hp).1, List.mem_append.mpr (Or.inr (ht.2 ev h p hp).2)⟩

/-- The `.eml` loop only adds events to the history, and they are
`EmlEvents`. -/
theorem findEmlLoop_events {Report : Type} (env : Env Report) (cfg : config)
    (emls : List String) :
    ∀ h : History Report, ∃ t, findEmlLoop env cfg emls h = h ++ t ∧ EmlEvents cfg emls t := by
  induction emls with
  | nil => intro h; exact ⟨[], by simp [findEmlLoop], emlEvents_nil cfg []⟩
  | cons eml rest ih =>
    intro h
    have step : ∀ s : History Report, EmlEvents cfg (eml :: rest) s →
        ∃ t, findEmlLoop env cfg rest (h ++ s) = h ++ t ∧ EmlEvents cfg (eml :: rest) t := by
      intro s hs
      obtain ⟨t, e, ht⟩ := ih (h ++ s)
      exact ⟨s ++ t, by rw [e, List.append_assoc], emlEvents_append hs (emlEvents_mono ht)⟩
    unfold findEmlLoop
    cases ho : env.osOpen h eml with
    | some e =>
      simp only []
      exact step [Event.osOpen eml (some e)] (by simp [EmlEvents, Event.kind, Event.subject])
    | none =>
      simp only []
      cases hx : env.extractAttachment (h ++ [Event.osOpen eml none]) eml cfg.Input.Dir with
      | error e =>
        simp only []
        rw [List.append_assoc]
        exact step _ (by simp [EmlEvents, Event.kind, Event.subject])
      | ok isSuccess =>
        simp only []
        cases isSuccess with
        | false =>
          simp only [Bool.false_eq_true, if_false]
          rw [List.append_assoc, List.append_assoc]
          exact step _ (by simp [EmlEvents, Event.kind, Event.subject])
        | true =>
          simp only [if_true]
          by_cases hd : cfg.Input.Delete = true
          · rw [if_pos hd]
            split
            · rw [List.append_assoc, List.append_assoc]
              exact step _ (by simp [EmlEvents, Event.kind, Event.subject])
            · rw [List.append_assoc, List.append_assoc, List.append_assoc]
              exact step _ (by simp [EmlEvents, Event.kind, Event.subject])
          · rw [if_neg hd]
            by_cases ha : cfg.Input.ArchiveDir ≠ ""
            · rw [if_pos ha]
              split
              · rw [List.append_assoc, List.append_assoc]
                exact step _ (by simp [EmlEvents, Event.kind, Event.subject])
              · rw [List.append_assoc, List.append_assoc, List.append_assoc]
                exact step _ (by simp [EmlEvents, Event.kind, Event.subject])
            · rw [if_neg ha]
              rw [List.append_assoc, List.append_assoc]
              exact step _ (by simp [EmlEvents, Event.kind, Event.subject])

theorem convertEvents_append {Report : Type} {f1 f2 : List String} {s t : History Report}
    (hs : ConvertEvents f1 s ((parsed s).map Prod.fst) ((parsed s).map Prod.snd))
    (ht : ConvertEvents f2 t ((parsed t).map Prod.fst) ((parsed t).map Prod.snd)) :
    ConvertEvents (f1 ++ f2) (s ++ t) ((parsed (s ++ t)).map Prod.fst)
      ((parsed (s ++ t)).map Prod.snd) := by
  obtain ⟨k1, o1, a1, _, _, n1, s1⟩ := hs
  obtain ⟨k2, o2, a2, _, _, n2, s2⟩ := ht
  refine ⟨?_, ?_, ?_, rfl, rfl, ?_, ?_⟩
  · intro ev hev
    rcases List.mem_append.mp hev with h | h
    · exact k1 ev h
    · exact k2 ev h
  · simp only [opened, List.filterMap_append] at o1 o2 ⊢
    rw [o1, o2]
  · simp only [parseAttempts, openedOk, List.filterMap_append] at a1 a2 ⊢
    rw [a1, a2]
  · simp only [parsed, failures, List.filterMap_append, List.countP_append,
      List.length_append] at n1 n2 ⊢
    omega
  · simp only [parsed, List.filterMap_append, List.map_append] at s1 s2 ⊢
    exact s1.append s2

/-- The loop of `convert` only adds events to the history; the two lists
grow by the successful parses among them. -/
theorem convertLoop_events {Report : Type} (env : Env Report) (cfg : config)
    (files : List String) :
    ∀ (accF : List String) (accR : List Report) (h : History Report), ∃ t,
      convertLoop env cfg files accF accR h =
        (accF ++ (parsed t).map Prod.fst, accR ++ (parsed t).map Prod.snd, h ++ t) ∧
      ConvertEvents files t ((parsed t).map Prod.fst) ((parsed t).map Prod.snd) := by
  induction files with
  | nil =>
    intro accF accR h
    exact ⟨[], by simp [convertLoop, parsed],
      by simp [ConvertEvents, opened, parseAttempts, openedOk, parsed, failures]⟩
  | cons f rest ih =>
    intro accF accR h
    have step : ∀ (s : History Report),
        ConvertEvents [f] s ((parsed s).map Prod.fst) ((parsed s).map Prod.snd) →
        ∃ t, convertLoop env cfg rest (accF ++ (parsed s).map Prod.fst)
            (accR ++ (parsed s).map Prod.snd) (h ++ s) =
          (accF ++ (parsed t).map Prod.fst, accR ++ (parsed t).map Prod.snd, h ++ t) ∧
          ConvertEvents (f :: rest) t ((parsed t).map Prod.fst) ((parsed t).map Prod.snd) := by
      intro s hs
      obtain ⟨t, e, ht⟩ := ih (accF ++ (parsed s).map Prod.fst)
        (accR ++ (parsed s).map Prod.snd) (h ++ s)
      refine ⟨s ++ t, ?_, convertEvents_append hs ht⟩
      rw [e]
      simp [parsed, List.filterMap_append, List.append_assoc]
    unfold convertLoop
    cases ho : env.osOpen h f with
    | some e =>
      simp only []
      have := step [Event.osOpen f (some e)]
        (by simp [ConvertEvents, opened, parseAttempts, openedOk, parsed, failures, Event.kind,
          Event.openedPath, Event.openedOkPath, Event.parseAttemptPath, Event.parsedReport,
          Event.isParseFailure])
      simpa [parsed, Event.parsedReport] using this
    | none =>
      simp only []
      cases hr : env.readParse (h ++ [Event.osOpen f none]) f cfg.LookupAddr cfg.LookupLimit with
      | error e =>
        simp only []
        have := step [Event.osOpen f none,
            Event.readParse f cfg.LookupAddr cfg.LookupLimit (.error e), Event.close f]
          (by simp [ConvertEvents, opened, parseAttempts, openedOk, parsed, failures, Event.kind,
            Event.openedPath, Event.openedOkPath, Event.parseAttemptPath, Event.parsedReport,
            Event.isParseFailure])
        simpa [parsed, Event.parsedReport, List.append_assoc] using this
      | ok report =>
        simp only []
        have := step [Event.osOpen f none,
            Event.readParse f cfg.LookupAddr cfg.LookupLimit (.ok report), Event.close f]
          (by simp [ConvertEvents, opened, parseAttempts, openedOk, parsed, failures, Event.kind,
            Event.openedPath, Event.openedOkPath, Event.parseAttemptPath, Event.parsedReport,
            Event.isParseFailure])
        simpa [parsed, Event.parsedReport, List.append_assoc] using this

/-- The method `convert` only adds events to the history, and they are
`ConvertEvents` for the candidate list and the two lists it leaves. -/
theorem convert_events {Report : Type} (env : Env Report) (c : filesConverter Report)
    (h : History Report) :
    ∃ t, (convert env c h).2 = h ++ t ∧
      ConvertEvents c.files t (convert env c h).1.filesSuccess (convert env c h).1.reports ∧
      (convert env c h).1.cfg = c.cfg ∧ (convert env c h).1.files = c.files := by
  obtain ⟨t, e, ht⟩ := convertLoop_events env c.cfg c.files [] [] h
  refine ⟨t, ?_, ?_, ?_, ?_⟩ <;> simp only [convert, e, List.nil_append]
  exact ht

/-- The loop of `write` renders the reports in order up to the first failure. -/
theorem writeLoop_events {Report : Type} (env : Env Report) (cfg : config)
    (reports : List Report) :
    ∀ h : History Report,
      writeLoop env cfg reports h =
          (none, h ++ reports.map (fun x => Event.render x none)) ∨
      ∃ pre r post e, reports = pre ++ r :: post ∧
        writeLoop env cfg reports h =
          (some e, h ++ pre.map (fun x => Event.render x none) ++ [Event.render r (some e)]) := by
  induction reports with
  | nil => intro h; left; simp [writeLoop]
  | cons r rest ih =>
    intro h
    unfold writeLoop
    cases ho : env.outputDo h cfg r with
    | some e =>
      right
      exact ⟨[], r, rest, e, rfl, by simp⟩
    | none =>
      simp only []
      rcases ih (h ++ [Event.render r none]) with hw | ⟨pre, r1, post, e, hr, hw⟩
      · left
        rw [hw]
        simp
      · right
        refine ⟨r :: pre, r1, post, e, by rw [hr]; rfl, ?_⟩
        rw [hw]
        simp

/-- The loop of `delete` adds one removal per file. -/
theorem deleteLoop_events {Report : Type} (env : Env Report) (files : List String) :
    ∀ h : History Report, ∃ t, deleteLoop env files h = h ++ t ∧ t.length = files.length ∧
      ∀ ev ∈ t, ∃ f res, f ∈ files ∧ ev = Event.remove f res := by
  induction files with
  | nil => intro h; exact ⟨[], by simp [deleteLoop]⟩
  | cons f rest ih =>
    intro h
    obtain ⟨t, e, hl, ht⟩ := ih (h ++ [Event.remove f (env.remove h f)])
    refine ⟨Event.remove f (env.remove h f) :: t, ?_, by simp [hl], ?_⟩
    · unfold deleteLoop
      simp only []
      rw [e]
      simp
    · intro ev hev
      rcases List.mem_cons.mp hev with h1 | h1
      · exact ⟨f, _, List.mem_cons_self _ _, h1⟩
      · obtain ⟨g, res, hg, he⟩ := ht ev h1
        exact ⟨g, res, List.mem_cons_of_mem _ hg, he⟩

/-- The loop of `archive` adds one rename per file, into the archive
directory under the base name of the file. -/
theorem archiveLoop_events {Report : Type} (env : Env Report) (cfg : config)
    (files : List String) :
    ∀ h : History Report, ∃ t, archiveLoop env cfg files h = h ++ t ∧
      t.length = files.length ∧
      ∀ ev ∈ t, ∃ f res, f ∈ files ∧
        ev = Event.rename f (filepathJoin cfg.Input.ArchiveDir (filepathBase f)) res := by
  induction files with
  | nil => intro h; exact ⟨[], by simp [archiveLoop]⟩
  | cons f rest ih =>
    intro h
    obtain ⟨t, e, hl, ht⟩ := ih (h ++ [Event.rename f
      (filepathJoin cfg.Input.ArchiveDir (filepathBase f))
      (env.rename h f (filepathJoin cfg.Input.ArchiveDir (filepathBase f)))])
    refine ⟨Event.rename f (filepathJoin cfg.Input.ArchiveDir (filepathBase f))
      (env.rename h f (filepathJoin cfg.Input.ArchiveDir (filepathBase f))) :: t, ?_,
      by simp [hl], ?_⟩
    · unfold archiveLoop
      simp only []
      rw [e]
      simp
    · intro ev hev
      rcases List.mem_cons.mp hev with h1 | h1
      · exact ⟨f, _, List.mem_cons_self _ _, h1⟩
      · obtain ⟨g, res, hg, he⟩ := ht ev h1
        exact ⟨g, res, List.mem_cons_of_mem _ hg, he⟩

/-- The three ways `find` goes: the glob fails, the walk fails, or both
succeed and the candidate list is set. -/
theorem find_events {Report : Type} (env : Env Report) (c : filesConverter Report)
    (h : History Report) :
    (∃ e, find env c h =
        (some e, c, h ++ [Event.glob (filepathJoin c.cfg.Input.Dir "*.eml") (.error e)])) ∨
    (∃ e emls te, EmlEvents c.cfg emls te ∧ find env c h =
        (some e, c, h ++ (Event.glob (filepathJoin c.cfg.Input.Dir "*.eml") (.ok emls) :: te ++
          [Event.walk c.cfg.Input.Dir (some e)]))) ∨
    (∃ emls te files, EmlEvents c.cfg emls te ∧ NoEml files ∧ find env c h =
        (none, { c with files := files },
          h ++ (Event.glob (filepathJoin c.cfg.Input.Dir "*.eml") (.ok emls) :: te ++
            [Event.walk c.cfg.Input.Dir none]))) := by
  simp only [find]
  cases hg : env.glob h (filepathJoin c.cfg.Input.Dir "*.eml") with
  | error e => left; exact ⟨e, rfl⟩
  | ok emls =>
    right
    simp only []
    have hloop : ∃ te, (if emls.length > 0 then
          findEmlLoop env c.cfg emls
            (h ++ [Event.glob (filepathJoin c.cfg.Input.Dir "*.eml") (.ok emls)])
        else h ++ [Event.glob (filepathJoin c.cfg.Input.Dir "*.eml") (.ok emls)]) =
        h ++ [Event.glob (filepathJoin c.cfg.Input.Dir "*.eml") (.ok emls)] ++ te ∧
        EmlEvents c.cfg emls te := by
      split
      · exact findEmlLoop_events env c.cfg emls _
      · exact ⟨[], by simp, emlEvents_nil _ _⟩
    obtain ⟨te, e1, hte⟩ := hloop
    rw [e1]
    have hno := filepathWalk_noEml c.cfg c.cfg.Input.Dir
      (env.lstat (h ++ [Event.glob (filepathJoin c.cfg.Input.Dir "*.eml") (.ok emls)] ++ te)
        c.cfg.Input.Dir)
    cases hw : filepathWalk c.cfg.Input.Dir
        (env.lstat (h ++ [Event.glob (filepathJoin c.cfg.Input.Dir "*.eml") (.ok emls)] ++ te)
          c.cfg.Input.Dir) (findWalkFn c.cfg) [] with
    | mk r files =>
      cases r with
      | some e =>
        left
        exact ⟨e, emls, te, hte, by simp⟩
      | none =>
        right
        rw [hw] at hno
        exact ⟨emls, te, files, hte, hno, by simp⟩

/-- The events of `delete` or `archive` after a write that succeeded. -/
theorem lifecycle_events {Report : Type} (env : Env Report) (c : filesConverter Report)
    (h : History Report) :
    ∃ tl, (if c.cfg.Input.Delete = true then (none, c, delete env c h)
        else if c.cfg.Input.ArchiveDir ≠ "" then (none, c, archive env c h)
        else ((none : Option GoError), c, h)) = (none, c, h ++ tl) ∧
      LifecycleEvents c.cfg c.filesSuccess tl := by
  unfold LifecycleEvents
  by_cases hd : c.cfg.Input.Delete = true
  · obtain ⟨t, e, hl, ht⟩ := deleteLoop_events env c.filesSuccess h
    refine ⟨t, ?_, ?_⟩
    · rw [if_pos hd, delete, e]
    · rw [if_pos hd]; exact ⟨hl, ht⟩
  · by_cases ha : c.cfg.Input.ArchiveDir ≠ ""
    · obtain ⟨t, e, hl, ht⟩ := archiveLoop_events env c.cfg c.filesSuccess h
      refine ⟨t, ?_, ?_⟩
      · rw [if_neg hd, if_pos ha, archive, e]
      · rw [if_neg hd, if_pos ha]; exact ⟨hl, ht⟩
    · refine ⟨[], ?_, ?_⟩
      · rw [if_neg hd, if_neg ha]; simp
      · rw [if_neg hd, if_neg ha]

/-- The write and lifecycle phases, after a find, a convert and an optional
merge that did not fail. -/
theorem write_lifecycle_shape {Report : Type} (env : Env Report)
    (c c3 : filesConverter Report) (h : History Report) (emls : List String)
    (te tc tm : History Report) (parsedReports : List Report)
    (found : Option GoError × History Report)
    (hfind : found = (none, h ++ (Event.glob (filepathJoin c.cfg.Input.Dir "*.eml") (.ok emls) ::
        te ++ [Event.walk c.cfg.Input.Dir none])))
    (hcfg : c3.cfg = c.cfg) (hext : NoEml c3.files) (hte : EmlEvents c.cfg emls te)
    (htc : ConvertEvents c3.files tc c3.filesSuccess parsedReports)
    (htm : MergeEvents c.cfg parsedReports c3.reports tm) :
    ∃ t,
      (match write env c3 (h ++ (Event.glob (filepathJoin c.cfg.Input.Dir "*.eml") (.ok emls) ::
          te ++ [Event.walk c.cfg.Input.Dir none] ++ tc ++ tm)) with
        | (some err, h1) => (some err, c3, h1)
        | (none, h1) =>
          if c3.cfg.Input.Delete then (none, c3, delete env c3 h1)
          else if c3.cfg.Input.ArchiveDir ≠ "" then (none, c3, archive env c3 h1)
          else (none, c3, h1)).2.2 = h ++ t ∧
      RunShape found h c
        (match write env c3 (h ++ (Event.glob (filepathJoin c.cfg.Input.Dir "*.eml") (.ok emls) ::
            te ++ [Event.walk c.cfg.Input.Dir none] ++ tc ++ tm)) with
          | (some err, h1) => (some err, c3, h1)
          | (none, h1) =>
            if c3.cfg.Input.Delete then (none, c3, delete env c3 h1)
            else if c3.cfg.Input.ArchiveDir ≠ "" then (none, c3, archive env c3 h1)
            else (none, c3, h1)).1
        (match write env c3 (h ++ (Event.glob (filepathJoin c.cfg.Input.Dir "*.eml") (.ok emls) ::
            te ++ [Event.walk c.cfg.Input.Dir none] ++ tc ++ tm)) with
          | (some err, h1) => (some err, c3, h1)
          | (none, h1) =>
            if c3.cfg.Input.Delete then (none, c3, delete env c3 h1)
            else if c3.cfg.Input.ArchiveDir ≠ "" then (none, c3, archive env c3 h1)
            else (none, c3, h1)).2.1 t := by
  unfold write
  rcases writeLoop_events env c3.cfg c3.reports
      (h ++ (Event.glob (filepathJoin c.cfg.Input.Dir "*.eml") (.ok emls) ::
        te ++ [Event.walk c.cfg.Input.Dir none] ++ tc ++ tm)) with
    hw | ⟨pre, r, post, e, hr, hw⟩
  · rw [hw]
    simp only []
    obtain ⟨tl, el, htl⟩ := lifecycle_events env c3
      (h ++ (Event.glob (filepathJoin c.cfg.Input.Dir "*.eml") (.ok emls) ::
        te ++ [Event.walk c.cfg.Input.Dir none] ++ tc ++ tm) ++
        c3.reports.map (fun x => Event.render x none))
    rw [el]
    refine ⟨Event.glob (filepathJoin c.cfg.Input.Dir "*.eml") (.ok emls) :: te ++
      [Event.walk c.cfg.Input.Dir none] ++ tc ++ tm ++
      c3.reports.map (fun x => Event.render x none) ++ tl, by simp only [List.append_assoc], ?_⟩
    exact RunShape.succeeds emls te tc tm tl parsedReports hfind rfl hcfg hext hte htc htm
      (by rw [← hcfg]; exact htl) rfl
  · rw [hw]
    simp only []
    refine ⟨Event.glob (filepathJoin c.cfg.Input.Dir "*.eml") (.ok emls) :: te ++
      [Event.walk c.cfg.Input.Dir none] ++ tc ++ tm ++
      pre.map (fun x => Event.render x none) ++ [Event.render r (some e)],
      by simp only [List.append_assoc], ?_⟩
    exact RunShape.renderFails e emls te tc tm parsedReports pre post r hfind rfl hcfg hext hte htc htm hr
      rfl

/-- Every run of `ConvertWrite` only adds events to the history and has one
of the five shapes of `RunShape`. -/
theorem ConvertWrite_shape {Report : Type} (env : Env Report) (c : filesConverter Report)
    (h : History Report) :
    ∃ t, (ConvertWrite env c h).2.2 = h ++ t ∧
      RunShape ((find env c h).1, (find env c h).2.2) h c (ConvertWrite env c h).1
        (ConvertWrite env c h).2.1 t := by
  unfold ConvertWrite
  rcases find_events env c h with
    ⟨e, hf⟩ | ⟨e, emls, te, hte, hf⟩ | ⟨emls, te, files, hte, hno, hf⟩
  · rw [hf]
    exact ⟨_, rfl, RunShape.globFails e rfl rfl rfl⟩
  · rw [hf]
    exact ⟨_, rfl, RunShape.walkFails e emls te rfl rfl hte rfl⟩
  · rw [hf]
    simp only []
    obtain ⟨tc, ec, htc, hcfg, hfiles⟩ := convert_events env { c with files := files }
      (h ++ (Event.glob (filepathJoin c.cfg.Input.Dir "*.eml") (.ok emls) :: te ++
        [Event.walk c.cfg.Input.Dir none]))
    generalize hcv : convert env { c with files := files }
      (h ++ (Event.glob (filepathJoin c.cfg.Input.Dir "*.eml") (.ok emls) :: te ++
        [Event.walk c.cfg.Input.Dir none])) = cv at ec htc hcfg hfiles
    obtain ⟨c2, h2⟩ := cv
    simp only at ec htc hcfg hfiles ⊢
    subst ec
    by_cases hm : c2.cfg.MergeReports = true
    · rw [if_pos hm]
      unfold merge
      cases hg : env.groupMergeReports _ c2.reports c2.cfg.Output.mergeKeyTemplate with
      | error e =>
        simp only []
        refine ⟨_, by rw [List.append_assoc, List.append_assoc], ?_⟩
        refine RunShape.mergeFails e emls te tc c2.reports rfl rfl hcfg (by rw [hfiles]; exact hno)
          (by rw [← hcfg]; exact hm) hte (by rw [hfiles]; exact htc) ?_
        rw [hcfg]
        simp
      | ok merged =>
        simp only []
        have := write_lifecycle_shape env c { c2 with reports := merged } h emls te tc
          [Event.groupMergeReports c2.reports c.cfg.Output.mergeKeyTemplate (.ok merged)]
          c2.reports _ rfl hcfg (by rw [hfiles]; exact hno) hte (by rw [hfiles]; exact htc)
          (by unfold MergeEvents; rw [if_pos (by rw [← hcfg]; exact hm)])
        simpa [hcfg, List.append_assoc] using this
    · rw [if_neg hm]
      simp only []
      have := write_lifecycle_shape env c c2 h emls te tc [] c2.reports _ rfl hcfg (by rw [hfiles]; exact hno) hte
        (by rw [hfiles]; exact htc)
        (by unfold MergeEvents; rw [if_neg (by rw [← hcfg]; exact hm)]; exact ⟨rfl, rfl⟩)
      simpa [List.append_assoc] using this

/-! ## Theorems about `ConvertWrite` -/

theorem event_abort_kind {Report : Type} {ev : Event Report} {e : GoError}
    (h : ev.abort = some e) :
    ev.kind = Kind.glob ∨ ev.kind = Kind.walk ∨ ev.kind = Kind.groupMergeReports ∨
      ev.kind = Kind.render := by
  cases ev <;> simp [Event.abort, Event.kind] at h ⊢

theorem event_subject_kind {Report : Type} {ev : Event Report} {p : String}
    (h : ev.subject = some p) : ev.kind = Kind.remove ∨ ev.kind = Kind.rename := by
  cases ev <;> simp [Event.subject, Event.kind] at h ⊢

theorem emlEvents_kind_ne {Report : Type} {cfg : config} {emls : List String}
    {t : History Report} (ht : EmlEvents cfg emls t) {ev : Event Report} (hev : ev ∈ t) :
    ev.kind ≠ Kind.glob ∧ ev.kind ≠ Kind.walk ∧ ev.kind ≠ Kind.groupMergeReports ∧
      ev.kind ≠ Kind.render ∧ ev.kind ≠ Kind.readParse := by
  rcases ht.1 ev hev with h | h | h | h | h <;> simp [h]

theorem convertEvents_kind_ne {Report : Type} {files fs : List String} {rs : List Report}
    {t : History Report} (ht : ConvertEvents files t fs rs) {ev : Event Report}
    (hev : ev ∈ t) :
    ev.kind ≠ Kind.glob ∧ ev.kind ≠ Kind.walk ∧ ev.kind ≠ Kind.groupMergeReports ∧
      ev.kind ≠ Kind.render ∧ ev.kind ≠ Kind.remove ∧ ev.kind ≠ Kind.rename := by
  rcases ht.1 ev hev with h | h | h <;> simp [h]

theorem mergeEvents_kind_eq {Report : Type} {cfg : config} {a b : List Report}
    {t : History Report} (ht : MergeEvents cfg a b t) {ev : Event Report} (hev : ev ∈ t) :
    ev.kind = Kind.groupMergeReports ∧ ev.abort = none := by
  unfold MergeEvents at ht
  split at ht
  · rw [ht] at hev
    simp only [List.mem_singleton] at hev
    rw [hev]
    exact ⟨rfl, rfl⟩
  · rw [ht.1] at hev
    simp at hev

theorem lifecycleEvents_kind_eq {Report : Type} {cfg : config} {fs : List String}
    {t : History Report} (ht : LifecycleEvents cfg fs t) {ev : Event Report} (hev : ev ∈ t) :
    (ev.kind = Kind.remove ∨ ev.kind = Kind.rename) ∧ ∃ f, f ∈ fs ∧ ev.subject = some f := by
  unfold LifecycleEvents at ht
  split at ht
  · obtain ⟨f, res, hf, he⟩ := ht.2 ev hev
    rw [he]
    exact ⟨Or.inl rfl, f, hf, rfl⟩
  · split at ht
    · obtain ⟨f, res, hf, he⟩ := ht.2 ev hev
      rw [he]
      exact ⟨Or.inr rfl, f, hf, rfl⟩
    · rw [ht] at hev
      simp at hev

/-- C1: in a run of `ConvertWrite` in which `find` succeeds and the render of
a report fails, `ConvertWrite` returns the error of that render; the failed
render is the last call of the run, so the reports after it in the
collection are not rendered and neither `delete` nor `archive` runs: after
`find` there are the calls of `convert` and `merge`, none of them a render,
a removal or a rename, then the successful renders of the reports before
the failing one, then the failing render.  No file of the succeeded-file
list is removed or moved in the whole run, `find` included, when the glob
for `*.eml` returns only names with the extension `.eml`. -/
theorem ConvertWrite_render_failure {Report : Type} (env : Env Report)
    (c : filesConverter Report) (h : History Report) (r : Report) (e : GoError)
    (hfind : (find env c h).1 = none)
    (hfail : Event.render r (some e) ∈ (ConvertWrite env c h).2.2.drop h.length) :
    (ConvertWrite env c h).1 = some e ∧
    ∃ t pre post,
      (ConvertWrite env c h).2.2 =
        (find env c h).2.2 ++ t ++ pre.map (fun x => Event.render x none) ++
          [Event.render r (some e)] ∧
      (ConvertWrite env c h).2.1.reports = pre ++ r :: post ∧
      (∀ ev ∈ t, ev.kind ≠ Kind.render ∧ ev.kind ≠ Kind.remove ∧ ev.kind ≠ Kind.rename) ∧
      ((∀ pat emls, Event.glob pat (.ok emls) ∈ (ConvertWrite env c h).2.2.drop h.length →
          ∀ p ∈ emls, filepathExt p = ".eml") →
        ∀ ev ∈ (ConvertWrite env c h).2.2.drop h.length, ∀ p, ev.subject = some p →
          p ∉ (ConvertWrite env c h).2.1.filesSuccess) := by
  obtain ⟨t, ht, shape⟩ := ConvertWrite_shape env c h
  rw [ht, List.drop_left] at hfail
  rw [ht, List.drop_left]
  cases shape with
  | globFails e1 hf _ _ => simp only at hf; rw [hfind] at hf; simp at hf
  | walkFails e1 emls te hf _ _ _ =>
    have := congrArg Prod.fst hf
    simp only at this
    rw [hfind] at this
    simp at this
  | mergeFails e1 emls te tc reports hf hres hcfg hext hmerge hte htc htt =>
    exfalso
    rw [htt] at hfail
    simp only [List.mem_append, List.mem_cons, List.mem_singleton, List.not_mem_nil,
      or_false] at hfail
    rcases hfail with ((((hx | hx) | hx) | hx) | hx)
    · cases hx
    · exact (emlEvents_kind_ne hte hx).2.2.2.1 rfl
    · cases hx
    · exact (convertEvents_kind_ne htc hx).2.2.2.1 rfl
    · cases hx
  | renderFails e1 emls te tc tm parsedReports pre post r1 hf hres hcfg hext hte htc htm hreports htt =>
    rw [htt] at hfail
    simp only [List.mem_append, List.mem_cons, List.mem_singleton, List.not_mem_nil,
      or_false, List.mem_map] at hfail
    have hlast : r = r1 ∧ e = e1 := by
      rcases hfail with ((((((hx | hx) | hx) | hx) | hx) | hx) | hx)
      · cases hx
      · exact absurd rfl (emlEvents_kind_ne hte hx).2.2.2.1
      · cases hx
      · exact absurd rfl (convertEvents_kind_ne htc hx).2.2.2.1
      · have := (mergeEvents_kind_eq htm hx).1
        simp [Event.kind] at this
      · obtain ⟨x, _, hx2⟩ := hx
        cases hx2
      · cases hx
        exact ⟨rfl, rfl⟩
    obtain ⟨hr, he⟩ := hlast
    subst hr
    subst he
    refine ⟨hres, tc ++ tm, pre, post, ?_, hreports, ?_, ?_⟩
    · have hf2 : (find env c h).2.2 = h ++ (Event.glob (filepathJoin c.cfg.Input.Dir "*.eml")
          (.ok emls) :: te ++ [Event.walk c.cfg.Input.Dir none]) := by
        have := congrArg Prod.snd hf
        simpa using this
      rw [htt, hf2]
      simp only [List.append_assoc, List.cons_append]
    · intro ev hev
      rcases List.mem_append.mp hev with hx | hx
      · exact ⟨(convertEvents_kind_ne htc hx).2.2.2.1, (convertEvents_kind_ne htc hx).2.2.2.2.1,
          (convertEvents_kind_ne htc hx).2.2.2.2.2⟩
      · have := (mergeEvents_kind_eq htm hx).1
        simp [this]
    · intro hglob ev hev p hp hmem
      have hk := event_subject_kind hp
      have hpe : p ∈ emls := by
        rw [htt] at hev
        simp only [List.mem_append, List.mem_cons, List.mem_singleton, List.not_mem_nil,
          or_false, List.mem_map] at hev
        rcases hev with ((((((hx | hx) | hx) | hx) | hx) | hx) | hx)
        · rw [hx] at hk; simp [Event.kind] at hk
        · exact (hte.2 ev hx p hp).1
        · rw [hx] at hk; simp [Event.kind] at hk
        · have := convertEvents_kind_ne htc hx
          rcases hk with hk | hk
          · exact absurd hk this.2.2.2.2.1
          · exact absurd hk this.2.2.2.2.2
        · have := (mergeEvents_kind_eq htm hx).1
          rw [this] at hk; simp at hk
        · obtain ⟨x, _, hx2⟩ := hx
          rw [← hx2] at hk; simp [Event.kind] at hk
        · rw [hx] at hk; simp [Event.kind] at hk
      have h1 : filepathExt p = ".eml" :=
        hglob (filepathJoin c.cfg.Input.Dir "*.eml") emls (by rw [htt]; simp) p hpe
      exact hext p (htc.2.2.2.2.2.2.subset hmem) h1
  | succeeds emls te tc tm tl parsedReports hf hres hcfg hext hte htc htm htl htt =>
    exfalso
    rw [htt] at hfail
    simp only [List.mem_append, List.mem_cons, List.mem_singleton, List.not_mem_nil,
      or_false, List.mem_map] at hfail
    rcases hfail with ((((((hx | hx) | hx) | hx) | hx) | hx) | hx)
    · cases hx
    · exact (emlEvents_kind_ne hte hx).2.2.2.1 rfl
    · cases hx
    · exact (convertEvents_kind_ne htc hx).2.2.2.1 rfl
    · have := (mergeEvents_kind_eq htm hx).1
      simp [Event.kind] at this
    · obtain ⟨x, _, hx2⟩ := hx
      cases hx2
    · have := (lifecycleEvents_kind_eq htl hx).1
      simp [Event.kind] at this

theorem zip_map_fst_snd {α β : Type} (l : List (α × β)) :
    List.zip (l.map Prod.fst) (l.map Prod.snd) = l := by
  induction l with
  | nil => rfl
  | cons a l ih => simp [ih]

/-- When the answers of `os.Open` and `readParse` depend on the file only,
the loop of `convert` filters the candidates. -/
theorem convertLoop_stateless {Report : Type} (env : Env Report) (cfg : config)
    (op : String → Option GoError) (rp : String → Except GoError Report)
    (hop : ∀ h f, env.osOpen h f = op f)
    (hrp : ∀ h f, env.readParse h f cfg.LookupAddr cfg.LookupLimit = rp f)
    (files : List String) :
    ∀ (accF : List String) (accR : List Report) (h : History Report),
      (convertLoop env cfg files accF accR h).1 =
        accF ++ files.filter (fun f => (parseOutcome op rp f).isSome) ∧
      (convertLoop env cfg files accF accR h).2.1 =
        accR ++ files.filterMap (parseOutcome op rp) := by
  induction files with
  | nil => intro accF accR h; simp [convertLoop]
  | cons f rest ih =>
    intro accF accR h
    unfold convertLoop
    simp only [hop, hrp]
    cases ho : op f with
    | some e =>
      simp only []
      rw [(ih _ _ _).1, (ih _ _ _).2]
      simp [parseOutcome, ho, List.filter_cons, List.filterMap_cons]
    | none =>
      simp only []
      cases hr : rp f with
      | error e =>
        simp only []
        rw [(ih _ _ _).1, (ih _ _ _).2]
        simp [parseOutcome, ho, hr, List.filter_cons, List.filterMap_cons]
      | ok r =>
        simp only []
        rw [(ih _ _ _).1, (ih _ _ _).2]
        simp [parseOutcome, ho, hr, List.filter_cons, List.filterMap_cons]

/-- C4: `convert` has no error result and, for every candidate list, only
adds to the history: each candidate is opened once, in the order of the
list; `readParse` is called exactly for the files whose open succeeded; the
succeeded-file list and the report list are, in that order, the files and
the reports of the successful parses, so index `i` of one corresponds to
index `i` of the other and both have the same length; the succeeded-file
list is a subsequence of the candidate list; the failed opens and parses
account for the rest, so with exactly one failure among `N` candidates both
lists have length `N - 1`.  When the answers of `os.Open` and `readParse`
depend on the file only, the succeeded-file list is the candidate list
filtered by "open and parse succeed" and the report list holds the reports
of these files. -/
theorem convert_spec {Report : Type} (env : Env Report) (c : filesConverter Report)
    (h : History Report) :
    ∃ t, (convert env c h).2 = h ++ t ∧
      opened t = c.files ∧ parseAttempts t = openedOk t ∧
      List.zip (convert env c h).1.filesSuccess (convert env c h).1.reports = parsed t ∧
      (convert env c h).1.filesSuccess = (parsed t).map Prod.fst ∧
      (convert env c h).1.reports = (parsed t).map Prod.snd ∧
      (convert env c h).1.filesSuccess.Sublist c.files ∧
      (convert env c h).1.filesSuccess.length = (convert env c h).1.reports.length ∧
      (convert env c h).1.reports.length + failures t = c.files.length ∧
      (failures t = 1 →
        (convert env c h).1.filesSuccess.length = c.files.length - 1 ∧
        (convert env c h).1.reports.length = c.files.length - 1) ∧
      (∀ (op : String → Option GoError) (rp : String → Except GoError Report),
        (∀ h1 f, env.osOpen h1 f = op f) →
        (∀ h1 f, env.readParse h1 f c.cfg.LookupAddr c.cfg.LookupLimit = rp f) →
        (convert env c h).1.filesSuccess =
            c.files.filter (fun f => (parseOutcome op rp f).isSome) ∧
          (convert env c h).1.reports = c.files.filterMap (parseOutcome op rp)) := by
  obtain ⟨t, e, ⟨_, ho, ha, hf, hr, hn, hs⟩, _, _⟩ := convert_events env c h
  refine ⟨t, e, ho, ha, ?_, hf, hr, hs, ?_, ?_, ?_, ?_⟩
  · rw [hf, hr, zip_map_fst_snd]
  · rw [hf, hr]; simp
  · rw [hr]; simpa using hn
  · intro h1
    rw [hf, hr]
    simp only [List.length_map]
    omega
  · intro op rp hop hrp
    have := convertLoop_stateless env c.cfg op rp hop hrp c.files [] [] h
    simpa [convert] using this

theorem parsed_mem {Report : Type} {t : History Report} {p : String}
    (h : p ∈ (parsed t).map Prod.fst) :
    ∃ r la ll, Event.readParse p la ll (.ok r) ∈ t := by
  obtain ⟨⟨q, r⟩, hq, rfl⟩ := List.mem_map.mp h
  obtain ⟨ev, hev, he⟩ := List.mem_filterMap.mp hq
  cases ev with
  | readParse path la ll res =>
    cases res with
    | error e => simp [Event.parsedReport] at he
    | ok r1 =>
      simp only [Event.parsedReport, Option.some.injEq, Prod.mk.injEq] at he
      obtain ⟨h1, h2⟩ := he
      subst h1
      subst h2
      exact ⟨_, la, ll, hev⟩
  | _ => simp [Event.parsedReport] at he

theorem parseAttempts_mem {Report : Type} {t : History Report} {p : String} {la : Bool}
    {ll : Int} {res : Except GoError Report} (h : Event.readParse p la ll res ∈ t) :
    p ∈ parseAttempts t :=
  List.mem_filterMap.mpr ⟨_, h, rfl⟩

theorem openedOk_mem {Report : Type} {t : History Report} {p : String}
    (h : p ∈ openedOk t) : Event.osOpen p none ∈ t := by
  obtain ⟨ev, hev, he⟩ := List.mem_filterMap.mp h
  cases ev with
  | osOpen path res =>
    cases res with
    | some e => simp [Event.openedOkPath] at he
    | none =>
      simp only [Event.openedOkPath, Option.some.injEq] at he
      subst he
      exact hev
  | _ => simp [Event.openedOkPath] at he

theorem renders_eq_nil {Report : Type} {t : History Report}
    (h : ∀ ev ∈ t, ev.kind ≠ Kind.render) : renders t = [] := by
  unfold renders
  rw [List.filterMap_eq_nil_iff]
  intro ev hev
  have := h ev hev
  cases ev <;> simp [Event.rendered, Event.kind] at this ⊢

theorem renders_map_ok {Report : Type} (l : List Report) :
    renders (l.map (fun x => Event.render x none)) = l.map (fun x => (x, none)) := by
  induction l with
  | nil => rfl
  | cons a l ih =>
    simp only [renders, List.map_cons, List.filterMap_cons, Event.rendered] at ih ⊢
    rw [ih]

theorem renders_append {Report : Type} (s t : History Report) :
    renders (s ++ t) = renders s ++ renders t := by
  simp [renders, List.filterMap_append]

/-- C2, amended: every removal or rename of a run of `ConvertWrite` is either
made inside `find`, of a file that the glob for `*.eml` returned and whose
attachment extraction succeeded in that `find` (whatever happens to the run
afterwards), or made after a write phase that succeeded entirely, in a run
that returns no error, of a file of the succeeded-file list, whose open and
whose `readParse` succeeded in the run. -/
theorem ConvertWrite_lifecycle_sound {Report : Type} (env : Env Report)
    (c : filesConverter Report) (h : History Report) (ev : Event Report) (p : String)
    (hev : ev ∈ (ConvertWrite env c h).2.2.drop h.length)
    (hp : ev.subject = some p) :
    (ev ∈ (find env c h).2.2.drop h.length ∧
      Event.extractAttachment p c.cfg.Input.Dir (.ok true) ∈
        (find env c h).2.2.drop h.length ∧
      ∃ emls, p ∈ emls ∧
        Event.glob (filepathJoin c.cfg.Input.Dir "*.eml") (.ok emls) ∈
          (find env c h).2.2.drop h.length) ∨
    ((ConvertWrite env c h).1 = none ∧
      p ∈ (ConvertWrite env c h).2.1.filesSuccess ∧
      Event.osOpen p none ∈ (ConvertWrite env c h).2.2.drop h.length ∧
      (∃ r la ll, Event.readParse p la ll (.ok r) ∈ (ConvertWrite env c h).2.2.drop h.length) ∧
      renders ((ConvertWrite env c h).2.2.drop h.length) =
        (ConvertWrite env c h).2.1.reports.map (fun x => (x, none))) := by
  obtain ⟨t, ht, shape⟩ := ConvertWrite_shape env c h
  rw [ht, List.drop_left] at hev ⊢
  have hk := event_subject_kind hp
  have inFind : ∀ (te : History Report) (res : Option GoError) (emls : List String)
      (last : Event Report), EmlEvents c.cfg emls te → ev ∈ te →
      ((find env c h).1, (find env c h).2.2) =
        (res, h ++ (Event.glob (filepathJoin c.cfg.Input.Dir "*.eml") (.ok emls) :: te ++
          [last])) →
      ev ∈ (find env c h).2.2.drop h.length ∧
        Event.extractAttachment p c.cfg.Input.Dir (.ok true) ∈
          (find env c h).2.2.drop h.length ∧
        ∃ emls, p ∈ emls ∧
          Event.glob (filepathJoin c.cfg.Input.Dir "*.eml") (.ok emls) ∈
            (find env c h).2.2.drop h.length := by
    intro te res emls last hte hx hf
    have hf2 := congrArg Prod.snd hf
    simp only at hf2
    rw [hf2, List.drop_left]
    have := hte.2 ev hx p hp
    refine ⟨by simp [hx], by simp [this.2], emls, this.1, by simp⟩
  cases shape with
  | globFails e1 hf hres htt =>
    exfalso
    rw [htt] at hev
    simp only [List.mem_singleton] at hev
    rw [hev] at hk
    simp [Event.kind] at hk
  | walkFails e1 emls te hf hres hte htt =>
    left
    rw [htt] at hev
    simp only [List.mem_append, List.mem_cons, List.mem_singleton, List.not_mem_nil,
      or_false] at hev
    rcases hev with ((hx | hx) | hx)
    · rw [hx] at hk; simp [Event.kind] at hk
    · exact inFind te _ emls _ hte hx hf
    · rw [hx] at hk; simp [Event.kind] at hk
  | mergeFails e1 emls te tc reports hf hres hcfg hext hmerge hte htc htt =>
    left
    rw [htt] at hev
    simp only [List.mem_append, List.mem_cons, List.mem_singleton, List.not_mem_nil,
      or_false] at hev
    rcases hev with ((((hx | hx) | hx) | hx) | hx)
    · rw [hx] at hk; simp [Event.kind] at hk
    · exact inFind te _ emls _ hte hx hf
    · rw [hx] at hk; simp [Event.kind] at hk
    · have := convertEvents_kind_ne htc hx
      rcases hk with hk | hk
      · exact absurd hk this.2.2.2.2.1
      · exact absurd hk this.2.2.2.2.2
    · rw [hx] at hk; simp [Event.kind] at hk
  | renderFails e1 emls te tc tm parsedReports pre post r1 hf hres hcfg hext hte htc htm hreports htt =>
    left
    rw [htt] at hev
    simp only [List.mem_append, List.mem_cons, List.mem_singleton, List.not_mem_nil,
      or_false, List.mem_map] at hev
    rcases hev with ((((((hx | hx) | hx) | hx) | hx) | hx) | hx)
    · rw [hx] at hk; simp [Event.kind] at hk
    · exact inFind te _ emls _ hte hx hf
    · rw [hx] at hk; simp [Event.kind] at hk
    · have := convertEvents_kind_ne htc hx
      rcases hk with hk | hk
      · exact absurd hk this.2.2.2.2.1
      · exact absurd hk this.2.2.2.2.2
    · have := (mergeEvents_kind_eq htm hx).1
      rw [this] at hk; simp at hk
    · obtain ⟨x, _, hx2⟩ := hx
      rw [← hx2] at hk; simp [Event.kind] at hk
    · rw [hx] at hk; simp [Event.kind] at hk
  | succeeds emls te tc tm tl parsedReports hf hres hcfg hext hte htc htm htl htt =>
    rw [htt] at hev
    simp only [List.mem_append, List.mem_cons, List.mem_singleton, List.not_mem_nil,
      or_false, List.mem_map] at hev
    rcases hev with ((((((hx | hx) | hx) | hx) | hx) | hx) | hx)
    · rw [hx] at hk; simp [Event.kind] at hk
    · left; exact inFind te _ emls _ hte hx hf
    · rw [hx] at hk; simp [Event.kind] at hk
    · have := convertEvents_kind_ne htc hx
      rcases hk with hk | hk
      · exact absurd hk this.2.2.2.2.1
      · exact absurd hk this.2.2.2.2.2
    · have := (mergeEvents_kind_eq htm hx).1
      rw [this] at hk; simp at hk
    · obtain ⟨x, _, hx2⟩ := hx
      rw [← hx2] at hk; simp [Event.kind] at hk
    · right
      obtain ⟨_, f, hfm, hsub⟩ := lifecycleEvents_kind_eq htl hx
      rw [hp] at hsub
      cases hsub
      have hmem : p ∈ (parsed tc).map Prod.fst := by
        rw [← htc.2.2.2.1]; exact hfm
      obtain ⟨r, la, ll, hrp⟩ := parsed_mem hmem
      have hop : Event.osOpen p none ∈ tc := by
        apply openedOk_mem
        rw [← htc.2.2.1]
        exact parseAttempts_mem hrp
      refine ⟨hres, hfm, ?_, ⟨r, la, ll, ?_⟩, ?_⟩
      · rw [htt]; simp [hop]
      · rw [htt]; simp [hrp]
      · rw [htt]
        have h1 : renders (Event.glob (filepathJoin c.cfg.Input.Dir "*.eml") (.ok emls) :: te ++
            [Event.walk c.cfg.Input.Dir none] ++ tc ++ tm) = [] := by
          apply renders_eq_nil
          intro ev1 hev1
          simp only [List.mem_append, List.mem_cons, List.mem_singleton, List.not_mem_nil,
            or_false] at hev1
          rcases hev1 with (((hy | hy) | hy) | hy) | hy
          · rw [hy]; simp [Event.kind]
          · exact (emlEvents_kind_ne hte hy).2.2.2.1
          · rw [hy]; simp [Event.kind]
          · exact (convertEvents_kind_ne htc hy).2.2.2.1
          · rw [(mergeEvents_kind_eq htm hy).1]; simp
        have h2 : renders tl = [] := by
          apply renders_eq_nil
          intro ev1 hev1
          rcases (lifecycleEvents_kind_eq htl hev1).1 with hy | hy <;> rw [hy] <;> simp
        rw [renders_append, renders_append, h1, h2, renders_map_ok]
        simp

theorem event_abort_eq_none {Report : Type} {ev : Event Report}
    (h : ev.kind ≠ Kind.glob ∧ ev.kind ≠ Kind.walk ∧ ev.kind ≠ Kind.groupMergeReports ∧
      ev.kind ≠ Kind.render) : ev.abort = none := by
  cases hab : ev.abort with
  | none => rfl
  | some e =>
    rcases event_abort_kind hab with hk | hk | hk | hk
    · exact absurd hk h.1
    · exact absurd hk h.2.1
    · exact absurd hk h.2.2.1
    · exact absurd hk h.2.2.2

theorem emlEvents_abort_none {Report : Type} {cfg : config} {emls : List String}
    {t : History Report} (ht : EmlEvents cfg emls t) {ev : Event Report} (hev : ev ∈ t) : ev.abort = none :=
  event_abort_eq_none ⟨(emlEvents_kind_ne ht hev).1, (emlEvents_kind_ne ht hev).2.1, (emlEvents_kind_ne ht hev).2.2.1,
    (emlEvents_kind_ne ht hev).2.2.2.1⟩

theorem convertEvents_abort_none {Report : Type} {files fs : List String} {rs : List Report}
    {t : History Report} (ht : ConvertEvents files t fs rs) {ev : Event Report}
    (hev : ev ∈ t) : ev.abort = none :=
  event_abort_eq_none ⟨(convertEvents_kind_ne ht hev).1, (convertEvents_kind_ne ht hev).2.1, (convertEvents_kind_ne ht hev).2.2.1,
    (convertEvents_kind_ne ht hev).2.2.2.1⟩

theorem lifecycleEvents_abort_none {Report : Type} {cfg : config} {fs : List String}
    {t : History Report} (ht : LifecycleEvents cfg fs t) {ev : Event Report} (hev : ev ∈ t) :
    ev.abort = none := by
  apply event_abort_eq_none
  rcases (lifecycleEvents_kind_eq ht hev).1 with hk | hk <;> rw [hk] <;> simp

/-- C9, amended: `ConvertWrite` returns an error exactly when the glob, the
directory walk, the merge or a render of the run fails, and the error is
that of the failed call; failed opens, extractions, removals, renames and
parses never make it return an error.  When the glob and the walk succeed,
whatever else failed in `find`, `convert` runs over the whole candidate
list, and when the run returns no error every report of the collection was
rendered. -/
theorem ConvertWrite_error_sources {Report : Type} (env : Env Report)
    (c : filesConverter Report) (h : History Report) :
    (∀ e, (ConvertWrite env c h).1 = some e ↔
      ∃ ev ∈ (ConvertWrite env c h).2.2.drop h.length, ev.abort = some e) ∧
    ((find env c h).1 = none →
      ∃ tc rest, (ConvertWrite env c h).2.2 = (find env c h).2.2 ++ tc ++ rest ∧
        opened tc = (ConvertWrite env c h).2.1.files ∧
        parseAttempts tc = openedOk tc ∧
        (ConvertWrite env c h).2.1.filesSuccess = (parsed tc).map Prod.fst ∧
        ((ConvertWrite env c h).1 = none →
          renders rest = (ConvertWrite env c h).2.1.reports.map (fun x => (x, none)))) := by
  obtain ⟨t, ht, shape⟩ := ConvertWrite_shape env c h
  rw [ht, List.drop_left]
  cases shape with
  | globFails e1 hf hres htt =>
    constructor
    · intro e
      rw [hres, htt]
      simp [Event.abort]
    · intro hfind
      simp only at hf
      rw [hfind] at hf
      simp at hf
  | walkFails e1 emls te hf hres hte htt =>
    constructor
    · intro e
      rw [hres, htt]
      constructor
      · intro he
        exact ⟨Event.walk c.cfg.Input.Dir (some e1), by simp, by simpa [Event.abort] using he⟩
      · rintro ⟨ev, hev, hab⟩
        simp only [List.mem_append, List.mem_cons, List.mem_singleton, List.not_mem_nil,
          or_false] at hev
        rcases hev with ((hx | hx) | hx)
        · rw [hx] at hab; simp [Event.abort] at hab
        · rw [emlEvents_abort_none hte hx] at hab; cases hab
        · rw [hx] at hab; simpa [Event.abort] using hab
    · intro hfind
      have := congrArg Prod.fst hf
      simp only at this
      rw [hfind] at this
      simp at this
  | mergeFails e1 emls te tc reports hf hres hcfg hext hmerge hte htc htt =>
    constructor
    · intro e
      rw [hres, htt]
      constructor
      · intro he
        exact ⟨Event.groupMergeReports reports c.cfg.Output.mergeKeyTemplate (.error e1),
          by simp, by simpa [Event.abort] using he⟩
      · rintro ⟨ev, hev, hab⟩
        simp only [List.mem_append, List.mem_cons, List.mem_singleton, List.not_mem_nil,
          or_false] at hev
        rcases hev with ((((hx | hx) | hx) | hx) | hx)
        · rw [hx] at hab; simp [Event.abort] at hab
        · rw [emlEvents_abort_none hte hx] at hab; cases hab
        · rw [hx] at hab; simp [Event.abort] at hab
        · rw [convertEvents_abort_none htc hx] at hab; cases hab
        · rw [hx] at hab; simpa [Event.abort] using hab
    · intro _
      have hf2 := congrArg Prod.snd hf
      simp only at hf2
      refine ⟨tc, [Event.groupMergeReports reports c.cfg.Output.mergeKeyTemplate (.error e1)],
        ?_, htc.2.1, htc.2.2.1, htc.2.2.2.1, ?_⟩
      · rw [htt, hf2]
        simp only [List.append_assoc, List.cons_append]
      · intro hnone
        rw [hres] at hnone
        cases hnone
  | renderFails e1 emls te tc tm parsedReports pre post r1 hf hres hcfg hext hte htc htm hreports htt =>
    constructor
    · intro e
      rw [hres, htt]
      constructor
      · intro he
        exact ⟨Event.render r1 (some e1), by simp, by simpa [Event.abort] using he⟩
      · rintro ⟨ev, hev, hab⟩
        simp only [List.mem_append, List.mem_cons, List.mem_singleton, List.not_mem_nil,
          or_false, List.mem_map] at hev
        rcases hev with ((((((hx | hx) | hx) | hx) | hx) | hx) | hx)
        · rw [hx] at hab; simp [Event.abort] at hab
        · rw [emlEvents_abort_none hte hx] at hab; cases hab
        · rw [hx] at hab; simp [Event.abort] at hab
        · rw [convertEvents_abort_none htc hx] at hab; cases hab
        · rw [(mergeEvents_kind_eq htm hx).2] at hab; cases hab
        · obtain ⟨x, _, hx2⟩ := hx
          rw [← hx2] at hab; simp [Event.abort] at hab
        · rw [hx] at hab; simpa [Event.abort] using hab
    · intro _
      have hf2 := congrArg Prod.snd hf
      simp only at hf2
      refine ⟨tc, tm ++ pre.map (fun x => Event.render x none) ++ [Event.render r1 (some e1)],
        ?_, htc.2.1, htc.2.2.1, htc.2.2.2.1, ?_⟩
      · rw [htt, hf2]
        simp only [List.append_assoc, List.cons_append]
      · intro hnone
        rw [hres] at hnone
        cases hnone
  | succeeds emls te tc tm tl parsedReports hf hres hcfg hext hte htc htm htl htt =>
    constructor
    · intro e
      rw [hres, htt]
      constructor
      · intro he; cases he
      · rintro ⟨ev, hev, hab⟩
        exfalso
        simp only [List.mem_append, List.mem_cons, List.mem_singleton, List.not_mem_nil,
          or_false, List.mem_map] at hev
        rcases hev with ((((((hx | hx) | hx) | hx) | hx) | hx) | hx)
        · rw [hx] at hab; simp [Event.abort] at hab
        · rw [emlEvents_abort_none hte hx] at hab; cases hab
        · rw [hx] at hab; simp [Event.abort] at hab
        · rw [convertEvents_abort_none htc hx] at hab; cases hab
        · rw [(mergeEvents_kind_eq htm hx).2] at hab; cases hab
        · obtain ⟨x, _, hx2⟩ := hx
          rw [← hx2] at hab; simp [Event.abort] at hab
        · rw [lifecycleEvents_abort_none htl hx] at hab; cases hab
    · intro _
      have hf2 := congrArg Prod.snd hf
      simp only at hf2
      refine ⟨tc, tm ++ (ConvertWrite env c h).2.1.reports.map (fun x => Event.render x none) ++ tl,
        ?_, htc.2.1, htc.2.2.1, htc.2.2.2.1, ?_⟩
      · rw [htt, hf2]
        simp only [List.append_assoc, List.cons_append]
      · intro _
        have h1 : renders tm = [] := by
          apply renders_eq_nil
          intro ev1 hev1
          rw [(mergeEvents_kind_eq htm hev1).1]; simp
        have h2 : renders tl = [] := by
          apply renders_eq_nil
          intro ev1 hev1
          rcases (lifecycleEvents_kind_eq htl hev1).1 with hy | hy <;> rw [hy] <;> simp
        rw [renders_append, renders_append, h1, h2, renders_map_ok]
        simp

theorem ConvertWrite_render_failure_witness :
    (ConvertWrite secondRenderFailsEnv (startOf deleteLoaded) []).1 =
        some (errorf "render failed") ∧
      ∃ t pre post,
        (ConvertWrite secondRenderFailsEnv (startOf deleteLoaded) []).2.2 =
          (find secondRenderFailsEnv (startOf deleteLoaded) []).2.2 ++ t ++
            pre.map (fun x => Event.render x none) ++
            [Event.render "/in/b.xml" (some (errorf "render failed"))] ∧
        (ConvertWrite secondRenderFailsEnv (startOf deleteLoaded) []).2.1.reports =
          pre ++ "/in/b.xml" :: post ∧
        (∀ ev ∈ t, ev.kind ≠ Kind.render ∧ ev.kind ≠ Kind.remove ∧ ev.kind ≠ Kind.rename) ∧
        ((∀ pat emls, Event.glob pat (.ok emls) ∈
              (ConvertWrite secondRenderFailsEnv (startOf deleteLoaded) []).2.2.drop
                ([] : History String).length →
            ∀ p ∈ emls, filepathExt p = ".eml") →
          ∀ ev ∈ (ConvertWrite secondRenderFailsEnv (startOf deleteLoaded) []).2.2.drop
              ([] : History String).length,
            ∀ p, ev.subject = some p →
              p ∉ (ConvertWrite secondRenderFailsEnv (startOf deleteLoaded) []).2.1.filesSuccess) :=
  ConvertWrite_render_failure secondRenderFailsEnv (startOf deleteLoaded) [] "/in/b.xml"
    (errorf "render failed") (by decide) (by decide)

/-- The run of C1 in full: one mail and three reports, the render of the
second fails; the third is not rendered and, although `input.delete` is
set, only the mail was removed, inside `find`. -/
theorem ConvertWrite_second_of_three_fails :
    ConvertWrite secondRenderFailsEnv (startOf deleteLoaded) [] =
      (some (errorf "render failed"),
       ⟨deleteLoaded, ["/in/a.xml", "/in/b.xml", "/in/c.xml"],
         ["/in/a.xml", "/in/b.xml", "/in/c.xml"], ["/in/a.xml", "/in/b.xml", "/in/c.xml"]⟩,
       [Event.glob "/in/*.eml" (.ok ["/in/m.eml"]),
        Event.osOpen "/in/m.eml" none,
        Event.extractAttachment "/in/m.eml" "/in" (.ok true),
        Event.remove "/in/m.eml" none,
        Event.close "/in/m.eml",
        Event.walk "/in" none,
        Event.osOpen "/in/a.xml" none, Event.readParse "/in/a.xml" false 50 (.ok "/in/a.xml"),
        Event.close "/in/a.xml",
        Event.osOpen "/in/b.xml" none, Event.readParse "/in/b.xml" false 50 (.ok "/in/b.xml"),
        Event.close "/in/b.xml",
        Event.osOpen "/in/c.xml" none, Event.readParse "/in/c.xml" false 50 (.ok "/in/c.xml"),
        Event.close "/in/c.xml",
        Event.render "/in/a.xml" none,
        Event.render "/in/b.xml" (some (errorf "render failed"))]) := by
  decide

/-- C2 as stated fails: with `input.delete` set, the mail `/in/m.eml` is
removed inside `find`, right after its attachment is extracted, and the
write phase of the same run fails. -/
theorem ConvertWrite_eml_removed_write_fails :
    ConvertWrite mailRenderFailsEnv (startOf deleteLoaded) [] =
      (some (errorf "render failed"),
       ⟨deleteLoaded, ["/in/r.xml"], ["/in/r.xml"], ["/in/r.xml"]⟩,
       [Event.glob "/in/*.eml" (.ok ["/in/m.eml"]),
        Event.osOpen "/in/m.eml" none,
        Event.extractAttachment "/in/m.eml" "/in" (.ok true),
        Event.remove "/in/m.eml" none,
        Event.close "/in/m.eml",
        Event.walk "/in" none,
        Event.osOpen "/in/r.xml" none, Event.readParse "/in/r.xml" false 50 (.ok "/in/r.xml"),
        Event.close "/in/r.xml",
        Event.render "/in/r.xml" (some (errorf "render failed"))]) := by
  decide

theorem ConvertWrite_lifecycle_sound_witness :
    (Event.remove "/in/a.xml" none ∈
        (find secondParseFailsEnv (startOf deleteLoaded) []).2.2.drop
          ([] : History String).length ∧
      Event.extractAttachment "/in/a.xml" (startOf deleteLoaded).cfg.Input.Dir (.ok true) ∈
        (find secondParseFailsEnv (startOf deleteLoaded) []).2.2.drop
          ([] : History String).length ∧
      ∃ emls, "/in/a.xml" ∈ emls ∧
        Event.glob (filepathJoin (startOf deleteLoaded).cfg.Input.Dir "*.eml") (.ok emls) ∈
          (find secondParseFailsEnv (startOf deleteLoaded) []).2.2.drop
            ([] : History String).length) ∨
    ((ConvertWrite secondParseFailsEnv (startOf deleteLoaded) []).1 = none ∧
      "/in/a.xml" ∈ (ConvertWrite secondParseFailsEnv (startOf deleteLoaded) []).2.1.filesSuccess ∧
      Event.osOpen "/in/a.xml" none ∈
        (ConvertWrite secondParseFailsEnv (startOf deleteLoaded) []).2.2.drop
          ([] : History String).length ∧
      (∃ r la ll, Event.readParse "/in/a.xml" la ll (.ok r) ∈
        (ConvertWrite secondParseFailsEnv (startOf deleteLoaded) []).2.2.drop
          ([] : History String).length) ∧
      renders ((ConvertWrite secondParseFailsEnv (startOf deleteLoaded) []).2.2.drop
          ([] : History String).length) =
        (ConvertWrite secondParseFailsEnv (startOf deleteLoaded) []).2.1.reports.map
          (fun x => (x, none))) :=
  ConvertWrite_lifecycle_sound secondParseFailsEnv (startOf deleteLoaded) []
    (Event.remove "/in/a.xml" none) "/in/a.xml" (by decide) rfl

/-- A run with three candidates of which the second does not parse: two
reports, two succeeded files, no error, and only the two parsed files are
removed. -/
theorem ConvertWrite_one_of_three_unparsed :
    ConvertWrite secondParseFailsEnv (startOf deleteLoaded) [] =
      (none,
       ⟨deleteLoaded, ["/in/a.xml", "/in/b.xml", "/in/c.xml"],
         ["/in/a.xml", "/in/c.xml"], ["/in/a.xml", "/in/c.xml"]⟩,
       [Event.glob "/in/*.eml" (.ok []), Event.walk "/in" none,
        Event.osOpen "/in/a.xml" none, Event.readParse "/in/a.xml" false 50 (.ok "/in/a.xml"),
        Event.close "/in/a.xml",
        Event.osOpen "/in/b.xml" none,
        Event.readParse "/in/b.xml" false 50 (.error (errorf "not a DMARC report")),
        Event.close "/in/b.xml",
        Event.osOpen "/in/c.xml" none, Event.readParse "/in/c.xml" false 50 (.ok "/in/c.xml"),
        Event.close "/in/c.xml",
        Event.render "/in/a.xml" none, Event.render "/in/c.xml" none,
        Event.remove "/in/a.xml" none, Event.remove "/in/c.xml" none]) := by
  decide

/-- C9 as stated fails: the input directory cannot be read, the walk of
`find` fails, `ConvertWrite` returns that error and no later phase runs. -/
theorem ConvertWrite_walk_failure_returned :
    ConvertWrite unreadableDirEnv (startOf (plainLoaded "/in")) [] =
      (some ⟨"open /in: permission denied", false⟩, startOf (plainLoaded "/in"),
       [Event.glob "/in/*.eml" (.ok []),
        Event.walk "/in" (some ⟨"open /in: permission denied", false⟩)]) := by
  decide

/-- A configuration returned by `loadConfig` never has an empty
`Input.ArchiveDir`: an absent `input.archive_dir` is cleaned to `"."`. -/
theorem loadConfig_archiveDir_ne_empty {Report : Type} (env : Env Report) (path : String)
    (h h1 : History Report) (c : config)
    (hok : loadConfig env path h = (LoadOutcome.ok c, h1)) : c.Input.ArchiveDir ≠ "" := by
  obtain ⟨data, doc, _, _, _, _, _, ha, _⟩ := loadConfig_ok_inv env path h h1 c hok
  rw [ha]
  exact filepathClean_ne_empty _

/-- With a configuration returned by `loadConfig` the branch of
`ConvertWrite` that leaves the files in place is never taken: a run that
returns no error ends with one removal or one rename per succeeded file. -/
theorem ConvertWrite_loaded_config_lifecycle {Report : Type} (env : Env Report) (path : String)
    (h0 h1 h : History Report) (c : filesConverter Report)
    (hok : loadConfig env path h0 = (LoadOutcome.ok c.cfg, h1))
    (hrun : (ConvertWrite env c h).1 = none) :
    ∃ t tl, (ConvertWrite env c h).2.2 = h ++ t ++ tl ∧
      tl.length = (ConvertWrite env c h).2.1.filesSuccess.length ∧
      ∀ ev ∈ tl, ∃ f res, f ∈ (ConvertWrite env c h).2.1.filesSuccess ∧
        (ev = Event.remove f res ∨
         ev = Event.rename f (filepathJoin c.cfg.Input.ArchiveDir (filepathBase f)) res) := by
  have hne := loadConfig_archiveDir_ne_empty env path h0 h1 c.cfg hok
  obtain ⟨t, ht, shape⟩ := ConvertWrite_shape env c h
  cases shape with
  | globFails e1 hf hres htt => rw [hrun] at hres; cases hres
  | walkFails e1 emls te hf hres hte htt => rw [hrun] at hres; cases hres
  | mergeFails e1 emls te tc reports hf hres hcfg hext hmerge hte htc htt =>
    rw [hrun] at hres; cases hres
  | renderFails e1 emls te tc tm parsedReports pre post r1 hf hres hcfg hext hte htc htm hreports htt =>
    rw [hrun] at hres; cases hres
  | succeeds emls te tc tm tl parsedReports hf hres hcfg hext hte htc htm htl htt =>
    refine ⟨Event.glob (filepathJoin c.cfg.Input.Dir "*.eml") (.ok emls) :: te ++
      [Event.walk c.cfg.Input.Dir none] ++ tc ++ tm ++
      (ConvertWrite env c h).2.1.reports.map (fun x => Event.render x none), tl,
      by rw [ht, htt]; simp only [List.append_assoc], ?_⟩
    unfold LifecycleEvents at htl
    by_cases hd : c.cfg.Input.Delete = true
    · rw [if_pos hd] at htl
      refine ⟨htl.1, ?_⟩
      intro ev hev
      obtain ⟨f, res, hf1, he⟩ := htl.2 ev hev
      exact ⟨f, res, hf1, Or.inl he⟩
    · rw [if_neg hd, if_pos hne] at htl
      refine ⟨htl.1, ?_⟩
      intro ev hev
      obtain ⟨f, res, hf1, he⟩ := htl.2 ev hev
      exact ⟨f, res, hf1, Or.inr he⟩

/-- C3 at a document with `input.dir: /in`, no `input.delete` and no
`input.archive_dir`, one mail and one report file: `loadConfig` returns a
configuration whose `Input.ArchiveDir` is `"."`, and the run renames the
mail, inside `find`, and the report file, after the write, into the
current directory. -/
theorem ConvertWrite_unset_archive_dir_moves_files :
    (plainDoc "/in" "txt").Input.Delete = false ∧
    (plainDoc "/in" "txt").Input.ArchiveDir = "" ∧
    loadConfig (mailAndReportEnv (plainDoc "/in" "txt")) "config.yaml" [] =
      (LoadOutcome.ok (plainLoaded "/in"),
        [Event.readFile "config.yaml" (.ok ""), Event.mkdirAll "." none]) ∧
    newFilesConverter (mailAndReportEnv (plainDoc "/in" "txt")) (plainLoaded "/in")
        [Event.readFile "config.yaml" (.ok ""), Event.mkdirAll "." none] =
      (.ok (startOf (plainLoaded "/in")),
        [Event.readFile "config.yaml" (.ok ""), Event.mkdirAll "." none,
         Event.stat "/in" false]) ∧
    ConvertWrite (mailAndReportEnv (plainDoc "/in" "txt")) (startOf (plainLoaded "/in"))
        [Event.readFile "config.yaml" (.ok ""), Event.mkdirAll "." none,
         Event.stat "/in" false] =
      (none,
       ⟨plainLoaded "/in", ["/in/r.xml"], ["/in/r.xml"], ["/in/r.xml"]⟩,
       [Event.readFile "config.yaml" (.ok ""), Event.mkdirAll "." none,
        Event.stat "/in" false,
        Event.glob "/in/*.eml" (.ok ["/in/m.eml"]),
        Event.osOpen "/in/m.eml" none,
        Event.extractAttachment "/in/m.eml" "/in" (.ok true),
        Event.rename "/in/m.eml" "m.eml" none,
        Event.close "/in/m.eml",
        Event.walk "/in" none,
        Event.osOpen "/in/r.xml" none, Event.readParse "/in/r.xml" false 50 (.ok "/in/r.xml"),
        Event.close "/in/r.xml",
        Event.render "/in/r.xml" none,
        Event.rename "/in/r.xml" "r.xml" none]) := by
  decide

end Dmarc
